import Mathlib

/-!
A verification development for the dap-cli client (src/main.go): a shallow
embedding of its frame codec (sendMessage and the header/body loop in listen),
its JSON marshalling of protocol messages, its pending-request registry
(responseChans) and the initialize handshake, together with theorems settling
the specification claims about them.

Modelling conventions:
  - The wire is a list of characters; Content-Length counts characters.  This
    is exact for ASCII frames and abstracts UTF-8 byte counting (the encoder
    and decoder of the source measure the same representation, so length
    accounting is preserved by the abstraction).
  - Go machine integers are Int with explicit range checks where the source
    checks them (strconv.Atoi).
  - JSON numbers are modelled as integers; the protocol fields the source
    decodes (seq, request_seq) are int64, and no claim involves fractional
    numbers.
  - Fallible operations return Option; runtime panics of the source (index
    out of range, make with negative length) are explicit constructors of the
    result types, never silently dropped.
-/

/-! ### Characters, whitespace, trimming (bytes.TrimSpace / strings.TrimSpace) -/

/-- Character list of a string literal, the form all wire text takes here. -/
def chars (s : String) : List Char := s.toList

/-- Whitespace as unicode.IsSpace recognises it on ASCII input: space, tab,
newline, vertical tab, form feed, carriage return. -/
def isWsChar (c : Char) : Bool :=
  c = ' ' || c = '\t' || c = '\n' || c = Char.ofNat 11 || c = Char.ofNat 12 || c = '\r'

/-- strings.TrimSpace / bytes.TrimSpace: drop leading and trailing whitespace. -/
def goTrimSpace (s : List Char) : List Char :=
  ((s.dropWhile isWsChar).reverse.dropWhile isWsChar).reverse

/-- strings.Split(line, sep) for a one-character separator: every maximal
separator-free run, in order; always at least one (possibly empty) part. -/
def splitOnColon : List Char → List (List Char)
  | [] => [[]]
  | c :: rest =>
    if c = ':' then [] :: splitOnColon rest
    else
      match splitOnColon rest with
      | [] => [[c]]
      | p :: ps => (c :: p) :: ps

/-! ### Decimal digits and strconv.Atoi -/

def isDigitChar (c : Char) : Bool := '0' ≤ c && c ≤ '9'

def digitChar (n : Nat) : Char := Char.ofNat ('0'.toNat + n)

/-- Numeric value of a digit run, most significant digit first. -/
def decimalVal (ds : List Char) : Nat :=
  ds.foldl (fun a c => a * 10 + (c.toNat - '0'.toNat)) 0

/-- strconv.Atoi: optional sign, then a nonempty digit run, rejected when the
result does not fit a 64-bit int (ErrRange is still a non-nil error to the
caller in listen). -/
def goAtoi (s : List Char) : Option Int :=
  let signed : Bool × List Char :=
    match s with
    | [] => (false, [])
    | c :: r =>
      if c = '+' then (false, r)
      else if c = '-' then (true, r)
      else (false, c :: r)
  let ds := signed.2
  if ds.isEmpty then none
  else if ds.all isDigitChar then
    let v : Int := if signed.1 then -(decimalVal ds : Int) else (decimalVal ds : Int)
    if -(2 ^ 63) ≤ v ∧ v < 2 ^ 63 then some v else none
  else none

/-- Decimal digit characters, most significant first; structural on fuel so
terms reduce (any fuel above the number of digits gives the same output). -/
def natCharsAux : Nat → Nat → List Char
  | 0, _ => []
  | fuel + 1, n =>
    if n < 10 then [digitChar n]
    else natCharsAux fuel (n / 10) ++ [digitChar (n % 10)]

/-- Decimal digit characters of a natural number, most significant first,
matching the %d verb of fmt and strconv.Itoa on nonnegative input. -/
def natChars (n : Nat) : List Char := natCharsAux (n + 1) n

/-- Decimal characters of an integer: optional minus sign then digits. -/
def intChars (i : Int) : List Char :=
  if i < 0 then '-' :: natChars i.natAbs else natChars i.natAbs

/-! ### JSON values

The value universe of encoding/json as this client exercises it.  Numbers are
integers (the protocol fields decoded here are int64); strings are character
lists. -/

inductive Json where
  | null
  | bool (b : Bool)
  | num (n : Int)
  | str (s : List Char)
  | arr (xs : List Json)
  | obj (kvs : List (List Char × Json))

/-! ### Serialization (json.Marshal) -/

/-- Lowercase hexadecimal digit, as the encoder of encoding/json emits. -/
def hexDigitChar (n : Nat) : Char :=
  if n < 10 then Char.ofNat ('0'.toNat + n) else Char.ofNat ('a'.toNat + (n - 10))

/-- How json.Marshal writes one character of a string: quote, backslash,
newline, carriage return and tab get two-character escapes; other control
characters, the HTML-sensitive characters and the line separators get
six-character \uXXXX escapes; everything else is written as itself. -/
def goEscapeChar (c : Char) : List Char :=
  if c = '"' then ['\\', '"']
  else if c = '\\' then ['\\', '\\']
  else if c = '\n' then ['\\', 'n']
  else if c = '\r' then ['\\', 'r']
  else if c = '\t' then ['\\', 't']
  else if c.toNat < 32 then
    ['\\', 'u', '0', '0', hexDigitChar (c.toNat / 16), hexDigitChar (c.toNat % 16)]
  else if c = '<' then ['\\', 'u', '0', '0', '3', 'c']
  else if c = '>' then ['\\', 'u', '0', '0', '3', 'e']
  else if c = '&' then ['\\', 'u', '0', '0', '2', '6']
  else if c.toNat = 0x2028 then ['\\', 'u', '2', '0', '2', '8']
  else if c.toNat = 0x2029 then ['\\', 'u', '2', '0', '2', '9']
  else [c]

/-- A whole string as json.Marshal writes it: quoted and escaped. -/
def serStr (s : List Char) : List Char :=
  '"' :: (s.flatMap goEscapeChar ++ ['"'])

mutual
/-- json.Marshal: compact output, no interior whitespace. -/
def jsonSer : Json → List Char
  | .null => chars ("null")
  | .bool true => chars ("true")
  | .bool false => chars ("false")
  | .num n => intChars n
  | .str s => serStr s
  | .arr xs => '[' :: (serItems xs ++ [']'])
  | .obj kvs => '{' :: (serFields kvs ++ ['}'])
termination_by structural j => j

/-- Comma-separated serialized elements of an array. -/
def serItems : List Json → List Char
  | [] => []
  | [x] => jsonSer x
  | x :: y :: ys => jsonSer x ++ ',' :: serItems (y :: ys)
termination_by structural xs => xs

/-- Comma-separated serialized members of an object. -/
def serFields : List (List Char × Json) → List Char
  | [] => []
  | [(k, v)] => serStr k ++ ':' :: jsonSer v
  | (k, v) :: m :: ms => serStr k ++ ':' :: jsonSer v ++ ',' :: serFields (m :: ms)
termination_by structural kvs => kvs
end

/-! ### Parsing (the structural part of json.Unmarshal) -/

/-- The whitespace the scanner of encoding/json accepts between tokens. -/
def jsonWsChar (c : Char) : Bool :=
  c = ' ' || c = '\t' || c = '\n' || c = '\r'

/-- Drop leading JSON whitespace. -/
def skipJsonWs : List Char → List Char
  | [] => []
  | c :: cs => if jsonWsChar c then skipJsonWs cs else c :: cs

/-- Value of one hexadecimal digit character (0-9, a-f, A-F by code point). -/
def hexCharVal (c : Char) : Option Nat :=
  let n := c.toNat
  if 48 ≤ n ∧ n ≤ 57 then some (n - 48)
  else if 97 ≤ n ∧ n ≤ 102 then some (n - 87)
  else if 65 ≤ n ∧ n ≤ 70 then some (n - 55)
  else none

/-- The two-character escapes the scanner accepts after a backslash. -/
def unescapeChar : Char → Option Char
  | '"' => some '"'
  | '\\' => some '\\'
  | '/' => some '/'
  | 'b' => some (Char.ofNat 8)
  | 'f' => some (Char.ofNat 12)
  | 'n' => some '\n'
  | 'r' => some '\r'
  | 't' => some '\t'
  | _ => none

/-- String body after the opening quote: characters up to the closing quote,
with escapes decoded. -/
def parseStrBody : List Char → Option (List Char × List Char)
  | [] => none
  | '"' :: rest => some ([], rest)
  | '\\' :: 'u' :: a :: b :: c :: d :: rest =>
    match hexCharVal a, hexCharVal b, hexCharVal c, hexCharVal d with
    | some va, some vb, some vc, some vd =>
      (parseStrBody rest).map fun p =>
        (Char.ofNat (((va * 16 + vb) * 16 + vc) * 16 + vd) :: p.1, p.2)
    | _, _, _, _ => none
  | '\\' :: e :: rest =>
    match unescapeChar e with
    | some ch => (parseStrBody rest).map fun p => (ch :: p.1, p.2)
    | none => none
  | c :: rest => (parseStrBody rest).map fun p => (c :: p.1, p.2)

/-- Longest digit run at the head of the input, and what follows it. -/
def spanDigits : List Char → List Char × List Char
  | [] => ([], [])
  | c :: cs =>
    if isDigitChar c then
      let p := spanDigits cs
      (c :: p.1, p.2)
    else ([], c :: cs)

/-- An integer literal: optional minus sign then a nonempty digit run. -/
def parseIntTok (s : List Char) : Option (Int × List Char) :=
  match s with
  | [] => none
  | c :: r =>
    if c = '-' then
      let p := spanDigits r
      if p.1.isEmpty then none else some (-(decimalVal p.1 : Int), p.2)
    else
      let p := spanDigits (c :: r)
      if p.1.isEmpty then none else some ((decimalVal p.1 : Int), p.2)

mutual
/-- One JSON value, by recursion on fuel (any fuel beyond the input length is
enough). -/
def parseVal : Nat → List Char → Option (Json × List Char)
  | 0, _ => none
  | fuel + 1, cs =>
    match skipJsonWs cs with
    | 'n' :: 'u' :: 'l' :: 'l' :: r => some (.null, r)
    | 't' :: 'r' :: 'u' :: 'e' :: r => some (.bool true, r)
    | 'f' :: 'a' :: 'l' :: 's' :: 'e' :: r => some (.bool false, r)
    | '"' :: r => (parseStrBody r).map fun p => (.str p.1, p.2)
    | '[' :: r =>
      (match skipJsonWs r with
       | ']' :: r2 => some (.arr [], r2)
       | cs2 => (parseItems fuel cs2).map fun p => (.arr p.1, p.2))
    | '{' :: r =>
      (match skipJsonWs r with
       | '}' :: r2 => some (.obj [], r2)
       | cs2 => (parseFields fuel cs2).map fun p => (.obj p.1, p.2))
    | cs1 => (parseIntTok cs1).map fun p => (.num p.1, p.2)
termination_by structural fuel _ => fuel

/-- One or more comma-separated array elements, then the closing bracket. -/
def parseItems : Nat → List Char → Option (List Json × List Char)
  | 0, _ => none
  | fuel + 1, cs =>
    match parseVal fuel cs with
    | none => none
    | some (v, r) =>
      match skipJsonWs r with
      | ',' :: r2 => (parseItems fuel r2).map fun p => (v :: p.1, p.2)
      | ']' :: r2 => some ([v], r2)
      | _ => none
termination_by structural fuel _ => fuel

/-- One or more comma-separated object members, then the closing brace. -/
def parseFields : Nat → List Char → Option (List (List Char × Json) × List Char)
  | 0, _ => none
  | fuel + 1, cs =>
    match skipJsonWs cs with
    | '"' :: r =>
      (match parseStrBody r with
       | none => none
       | some (k, r1) =>
         match skipJsonWs r1 with
         | ':' :: r2 =>
           (match parseVal fuel r2 with
            | none => none
            | some (v, r3) =>
              match skipJsonWs r3 with
              | ',' :: r4 => (parseFields fuel r4).map fun p => ((k, v) :: p.1, p.2)
              | '}' :: r4 => some ([(k, v)], r4)
              | _ => none)
         | _ => none)
    | _ => none
termination_by structural fuel _ => fuel
end

/-- Parse a complete JSON document: one value, then only whitespace. -/
def jsonParse (cs : List Char) : Option Json :=
  match parseVal (cs.length + 1) cs with
  | some (j, r) => if (skipJsonWs r).isEmpty then some j else none
  | none => none

/-! ### Protocol messages (the structs of src/main.go)

Response embeds ProtocolMessage in the source; its promoted fields Seq and
Type appear here directly.  Type is a reserved word in Lean, so that field is
named Typ.  The opaque json.RawMessage body is modelled as the JSON value it
holds. -/

structure ProtocolMessage where
  Seq : Int
  Typ : List Char
deriving DecidableEq

structure Response where
  Seq : Int
  Typ : List Char
  RequestSeq : Int
  Success : Bool
  Command : List Char
  Message : List Char
  Body : Json

/-- json.Marshal of a Response: the embedded envelope fields first, then the
declared fields, in declaration order, all emitted (no omitempty), with the
raw body inlined as its JSON value. -/
def responseToJson (r : Response) : Json :=
  .obj [(chars ("seq"), .num r.Seq),
        (chars ("type"), .str r.Typ),
        (chars ("request_seq"), .num r.RequestSeq),
        (chars ("success"), .bool r.Success),
        (chars ("command"), .str r.Command),
        (chars ("message"), .str r.Message),
        (chars ("body"), r.Body)]

def marshalResponse (r : Response) : List Char := jsonSer (responseToJson r)

/-- ASCII case folding, as the key matching of encoding/json applies it. -/
def lowerAscii (c : Char) : Char :=
  if 'A' ≤ c && c ≤ 'Z' then Char.ofNat (c.toNat + 32) else c

/-- Case-insensitive key match of json.Unmarshal (a struct field matches an
object key by name, exactly or ignoring case). -/
def eqFoldKey (a b : List Char) : Bool :=
  a.map lowerAscii == b.map lowerAscii

/-- The zero Response json.Unmarshal starts from. -/
def zeroResponse : Response :=
  { Seq := 0, Typ := [], RequestSeq := 0, Success := false,
    Command := [], Message := [], Body := .null }

/-- One object member applied to a Response under the decoding rules of
encoding/json: a matching key sets its field when the value has the field's
type, null is a no-op, a mismatched type is an error, an unknown key is
ignored.  The body field is a RawMessage and takes any value. -/
def setResponseField (r : Response) (k : List Char) (v : Json) : Option Response :=
  if eqFoldKey k (chars ("seq")) then
    match v with
    | .num n => some { r with Seq := n }
    | .null => some r
    | _ => none
  else if eqFoldKey k (chars ("type")) then
    match v with
    | .str s => some { r with Typ := s }
    | .null => some r
    | _ => none
  else if eqFoldKey k (chars ("request_seq")) then
    match v with
    | .num n => some { r with RequestSeq := n }
    | .null => some r
    | _ => none
  else if eqFoldKey k (chars ("success")) then
    match v with
    | .bool b => some { r with Success := b }
    | .null => some r
    | _ => none
  else if eqFoldKey k (chars ("command")) then
    match v with
    | .str s => some { r with Command := s }
    | .null => some r
    | _ => none
  else if eqFoldKey k (chars ("message")) then
    match v with
    | .str s => some { r with Message := s }
    | .null => some r
    | _ => none
  else if eqFoldKey k (chars ("body")) then
    some { r with Body := v }
  else some r

/-- json.Unmarshal of a parsed value into Response: an object decodes member
by member in document order (a later duplicate key overwrites), null is a
no-op, anything else is a type error. -/
def jsonToResponse : Json → Option Response
  | .obj kvs => kvs.foldlM (fun r kv => setResponseField r kv.1 kv.2) zeroResponse
  | .null => some zeroResponse
  | _ => none

/-- json.Unmarshal(body, &resp) as listen invokes it: structural parse, then
field decoding. -/
def unmarshalResponse (body : List Char) : Option Response :=
  (jsonParse body).bind jsonToResponse

/-! ### Capabilities (the struct the handshake decodes) -/

structure Capabilities where
  SupportsConfigurationDoneRequest : Bool
  SupportsFunctionBreakpoints : Bool
  SupportsConditionalBreakpoints : Bool
  SupportsHitConditionalBreakpoints : Bool
  SupportsEvaluateForHovers : Bool
  SupportsStepBack : Bool
  SupportsSetVariable : Bool
  SupportsRestartFrame : Bool
  SupportsGotoTargetsRequest : Bool
  SupportsStepInTargetsRequest : Bool
  SupportsCompletionsRequest : Bool
  CompletionTriggerCharacters : List (List Char)
  SupportsModulesRequest : Bool
deriving DecidableEq

def zeroCapabilities : Capabilities :=
  { SupportsConfigurationDoneRequest := false
    SupportsFunctionBreakpoints := false
    SupportsConditionalBreakpoints := false
    SupportsHitConditionalBreakpoints := false
    SupportsEvaluateForHovers := false
    SupportsStepBack := false
    SupportsSetVariable := false
    SupportsRestartFrame := false
    SupportsGotoTargetsRequest := false
    SupportsStepInTargetsRequest := false
    SupportsCompletionsRequest := false
    CompletionTriggerCharacters := []
    SupportsModulesRequest := false }

/-- A JSON array of strings, as []string decodes. -/
def jsonStrList : List Json → Option (List (List Char))
  | [] => some []
  | .str s :: xs => (jsonStrList xs).map fun t => s :: t
  | _ :: _ => none

/-- One object member applied to Capabilities.  Every field of the source
struct carries the empty json tag, so encoding/json matches each key against
the field name itself, case-insensitively. -/
def setCapabilitiesField (c : Capabilities) (k : List Char) (v : Json) : Option Capabilities :=
  if eqFoldKey k (chars ("SupportsConfigurationDoneRequest")) then
    match v with
    | .bool b => some { c with SupportsConfigurationDoneRequest := b }
    | .null => some c
    | _ => none
  else if eqFoldKey k (chars ("SupportsFunctionBreakpoints")) then
    match v with
    | .bool b => some { c with SupportsFunctionBreakpoints := b }
    | .null => some c
    | _ => none
  else if eqFoldKey k (chars ("SupportsConditionalBreakpoints")) then
    match v with
    | .bool b => some { c with SupportsConditionalBreakpoints := b }
    | .null => some c
    | _ => none
  else if eqFoldKey k (chars ("SupportsHitConditionalBreakpoints")) then
    match v with
    | .bool b => some { c with SupportsHitConditionalBreakpoints := b }
    | .null => some c
    | _ => none
  else if eqFoldKey k (chars ("SupportsEvaluateForHovers")) then
    match v with
    | .bool b => some { c with SupportsEvaluateForHovers := b }
    | .null => some c
    | _ => none
  else if eqFoldKey k (chars ("SupportsStepBack")) then
    match v with
    | .bool b => some { c with SupportsStepBack := b }
    | .null => some c
    | _ => none
  else if eqFoldKey k (chars ("SupportsSetVariable")) then
    match v with
    | .bool b => some { c with SupportsSetVariable := b }
    | .null => some c
    | _ => none
  else if eqFoldKey k (chars ("SupportsRestartFrame")) then
    match v with
    | .bool b => some { c with SupportsRestartFrame := b }
    | .null => some c
    | _ => none
  else if eqFoldKey k (chars ("SupportsGotoTargetsRequest")) then
    match v with
    | .bool b => some { c with SupportsGotoTargetsRequest := b }
    | .null => some c
    | _ => none
  else if eqFoldKey k (chars ("SupportsStepInTargetsRequest")) then
    match v with
    | .bool b => some { c with SupportsStepInTargetsRequest := b }
    | .null => some c
    | _ => none
  else if eqFoldKey k (chars ("SupportsCompletionsRequest")) then
    match v with
    | .bool b => some { c with SupportsCompletionsRequest := b }
    | .null => some c
    | _ => none
  else if eqFoldKey k (chars ("CompletionTriggerCharacters")) then
    match v with
    | .arr xs => (jsonStrList xs).map fun t => { c with CompletionTriggerCharacters := t }
    | .null => some c
    | _ => none
  else if eqFoldKey k (chars ("SupportsModulesRequest")) then
    match v with
    | .bool b => some { c with SupportsModulesRequest := b }
    | .null => some c
    | _ => none
  else some c

/-- json.Unmarshal of a parsed body value into Capabilities. -/
def jsonToCapabilities : Json → Option Capabilities
  | .obj kvs => kvs.foldlM (fun c kv => setCapabilitiesField c kv.1 kv.2) zeroCapabilities
  | .null => some zeroCapabilities
  | _ => none

/-! ### The frame decoder (the header and body loop of listen) -/

/-- bufio ReadBytes with delimiter newline: the characters up to and including
the first newline, and the rest; none when the input ends first (the source
only distinguishes the io.EOF case, in which it returns). -/
def readLine : List Char → Option (List Char × List Char)
  | [] => none
  | c :: rest =>
    if c = '\n' then some ([c], rest)
    else (readLine rest).map fun p => (c :: p.1, p.2)

/-- One nonblank header line as listen handles it: strings.Split on colons,
then parts zero and one, trimmed.  A line without a colon produces a
one-element slice and the access parts[1] panics (index out of range). -/
inductive HeaderLine where
  | entry (name value : List Char)
  | panicNoColon
deriving DecidableEq

def processHeaderLine (line : List Char) : HeaderLine :=
  match splitOnColon line with
  | p0 :: p1 :: _ => .entry (goTrimSpace p0) (goTrimSpace p1)
  | _ => .panicNoColon

/-- The headers map: assignment prepends, lookup takes the most recent
binding, so a later line for the same name overwrites an earlier one, as the
Go map assignment does. -/
def hdrInsert (hs : List (List Char × List Char)) (k v : List Char) :
    List (List Char × List Char) :=
  (k, v) :: hs

def hdrLookup (hs : List (List Char × List Char)) (k : List Char) : Option (List Char) :=
  (hs.find? fun p => p.1 == k).map Prod.snd

/-- Outcome of the inner header loop of listen. -/
inductive HeadersResult where
  | ok (hs : List (List Char × List Char)) (rest : List Char)
  | eofClean
  | panicNoColon

/-- The inner loop of listen: read lines until a blank one, recording each as
a header; end of input while waiting for a line returns cleanly; a line with
no colon panics.  Structural on fuel; every line holds a newline, so each
pass consumes input and any fuel beyond the input length is enough (the
zero-fuel branch is unreachable from readHeaders, see readHeadersAux_fuel). -/
def readHeadersAux : Nat → List (List Char × List Char) → List Char → HeadersResult
  | 0, _, _ => .eofClean
  | fuel + 1, hs, input =>
    match readLine input with
    | none => .eofClean
    | some (data, rest) =>
      let line := goTrimSpace data
      if line.isEmpty then .ok hs rest
      else
        match processHeaderLine line with
        | .entry name value => readHeadersAux fuel (hdrInsert hs name value) rest
        | .panicNoColon => .panicNoColon

def readHeaders (input : List Char) : HeadersResult :=
  readHeadersAux (input.length + 1) [] input

/-- Everything one iteration of the outer loop of listen can do up to the
point where a decoded message is dispatched. -/
inductive FrameResult where
  | frame (resp : Response) (rest : List Char)
  | eofClean
  | skipNoLength (rest : List Char)
  | fatalBadLength
  | fatalTruncated
  | fatalBadJson
  | panicHeaderColon
  | panicNegativeLength

/-- The body phase of one iteration, given the Content-Length value: Atoi (a
failure is fatal), make([]byte, n) (a negative n panics), io.ReadFull (io.EOF
with nothing read returns cleanly, a short read is fatal), json.Unmarshal (a
failure is fatal). -/
def readBody (clv : List Char) (rest : List Char) : FrameResult :=
  match goAtoi clv with
  | none => .fatalBadLength
  | some n =>
    if n < 0 then .panicNegativeLength
    else if n ≤ (rest.length : Int) then
      match unmarshalResponse (rest.take n.toNat) with
      | some resp => .frame resp (rest.drop n.toNat)
      | none => .fatalBadJson
    else if rest.isEmpty then .eofClean
    else .fatalTruncated

/-- One full frame read: headers, the missing-length check (a missing key
yields the zero value, the empty string), then the body phase. -/
def readFrame (input : List Char) : FrameResult :=
  match readHeaders input with
  | .eofClean => .eofClean
  | .panicNoColon => .panicHeaderColon
  | .ok hs rest =>
    let clv := (hdrLookup hs (chars ("Content-Length"))).getD []
    if clv.isEmpty then .skipNoLength rest
    else readBody clv rest

/-! ### The frame encoder (sendMessage) -/

/-- sendMessage after a successful json.Marshal: a Content-Length header
stating the body length, a blank line, then the body. -/
def encodeFrame (body : List Char) : List Char :=
  chars ("Content-Length: ") ++ natChars body.length ++
    ['\r', '\n'] ++ ['\r', '\n'] ++ body

/-- The bytes sendMessage writes for a message of the Response shape. -/
def sendResponseWire (r : Response) : List Char := encodeFrame (marshalResponse r)

/-! ### The pending-request registry (responseChans) and dispatch -/

/-- responseChans: request sequence number to channel, the channel as an
abstract token. -/
abbrev Registry := List (Int × Nat)

def regLookup (m : Registry) (k : Int) : Option Nat :=
  (m.find? fun p => p.1 == k).map Prod.snd

def regRemove (m : Registry) (k : Int) : Registry :=
  m.filter fun p => p.1 != k

/-- What lines 127 to 132 of listen do with a decoded message, made
observable: the sends performed, the channels closed, the log lines written,
and the map afterwards. -/
structure DispatchResult where
  delivered : List (Nat × Response)
  closed : List Nat
  logged : List (List Char)
  registry : Registry

/-- If a channel is registered under the request_seq of the message, send the
message on it, close it and delete the entry; otherwise do nothing at all
(the source has only a comment there, no log call). -/
def dispatchResponse (m : Registry) (resp : Response) : DispatchResult :=
  match regLookup m resp.RequestSeq with
  | some ch =>
    { delivered := [(ch, resp)], closed := [ch], logged := [],
      registry := regRemove m resp.RequestSeq }
  | none => { delivered := [], closed := [], logged := [], registry := m }

/-- One iteration of the outer loop of listen, dispatch included. -/
inductive ListenStep where
  | next (registry : Registry) (delivered : List (Nat × Response)) (closed : List Nat)
      (rest : List Char)
  | stop
  | die

def listenIteration (m : Registry) (input : List Char) : ListenStep :=
  match readFrame input with
  | .frame resp rest =>
    let d := dispatchResponse m resp
    .next d.registry d.delivered d.closed rest
  | .skipNoLength rest => .next m [] [] rest
  | .eofClean => .stop
  | .fatalBadLength => .die
  | .fatalTruncated => .die
  | .fatalBadJson => .die
  | .panicHeaderColon => .die
  | .panicNegativeLength => .die

/-! ### The client as a transition system (listen concurrent with a blocked
initialize)

The only way the source unblocks the receive in initialize is the channel
send in listen; the receive carries no timeout and observes no connection
state.  The send and the receive on the unbuffered channel rendezvous, so one
reader step both dispatches and, when the dispatch hits the channel the
caller is blocked on, completes the receive. -/

structure ClientState where
  registry : Registry
  input : List Char
  readerAlive : Bool
  waitingOn : Option Nat
  received : Option Response

/-- The response a delivery list hands to a caller blocked on a channel. -/
def takeDelivery (w : Option Nat) (d : List (Nat × Response)) : Option Response :=
  match w with
  | none => none
  | some tok => (d.find? fun p => p.1 == tok).map Prod.snd

/-- The transitions the source gives this system.  The blocked caller has no
transition of its own: a bare channel receive only completes through a send. -/
inductive Step : ClientState → ClientState → Prop
  | reader (s : ClientState) (m : Registry) (d : List (Nat × Response)) (cl : List Nat)
      (rest : List Char) :
      s.readerAlive = true →
      listenIteration s.registry s.input = .next m d cl rest →
      Step s { registry := m, input := rest, readerAlive := true,
               waitingOn := if (takeDelivery s.waitingOn d).isSome then none else s.waitingOn,
               received := (takeDelivery s.waitingOn d).or s.received }
  | readerStop (s : ClientState) :
      s.readerAlive = true →
      listenIteration s.registry s.input = .stop →
      Step s { s with readerAlive := false }
  | readerDie (s : ClientState) :
      s.readerAlive = true →
      listenIteration s.registry s.input = .die →
      Step s { s with readerAlive := false }

/-! ### The initialize handshake -/

/-- The envelope NewRequest builds: the atomically incremented counter and
the request kind. -/
def NewRequest (seqCounter : Int) : ProtocolMessage × Int :=
  ({ Seq := seqCounter + 1, Typ := chars ("request") }, seqCounter + 1)

structure InitializeRequestArgs where
  ClientID : List Char
  ClientName : List Char
  AdapterID : List Char
  Locale : List Char
deriving DecidableEq

/-- json.Marshal of InitializeRequestArgs: adapterID always, the omitempty
fields only when nonempty, in declaration order. -/
def initArgsToJson (a : InitializeRequestArgs) : Json :=
  .obj ((if a.ClientID.isEmpty then [] else [(chars ("clientID"), Json.str a.ClientID)]) ++
        (if a.ClientName.isEmpty then [] else [(chars ("clientName"), Json.str a.ClientName)]) ++
        [(chars ("adapterID"), Json.str a.AdapterID)] ++
        (if a.Locale.isEmpty then [] else [(chars ("locale"), Json.str a.Locale)]))

/-- The Request struct, envelope fields promoted; the interface-typed
Arguments field is the JSON value it marshals to, absent when nil. -/
structure Request where
  Seq : Int
  Typ : List Char
  Command : List Char
  Arguments : Option Json

/-- json.Marshal of a Request: seq, type, command, then arguments unless
omitted as empty. -/
def marshalRequest (r : Request) : List Char :=
  jsonSer (.obj ([(chars ("seq"), Json.num r.Seq),
                  (chars ("type"), Json.str r.Typ),
                  (chars ("command"), Json.str r.Command)] ++
                 (match r.Arguments with
                  | some a => [(chars ("arguments"), a)]
                  | none => [])))

/-- InitializeRequest from src/main.go, at a given counter state. -/
def InitializeRequest (args : InitializeRequestArgs) (seqCounter : Int) : Request × Int :=
  let p := NewRequest seqCounter
  ({ Seq := p.1.Seq, Typ := p.1.Typ, Command := chars ("initialize"),
     Arguments := some (initArgsToJson args) }, p.2)

/-- The argument value initialize passes: only AdapterID set. -/
def dapCliInitArgs : InitializeRequestArgs :=
  { ClientID := [], ClientName := [], AdapterID := chars ("dap-cli"), Locale := [] }

/-- The initialize flow against a scripted peer reply, from a fresh
connection (counter zero, empty registry): build the request, register a
channel under its sequence number, send, then receive what the reader loop
delivers on that channel; on success decode the body into Capabilities.
Returns the bytes written to the peer and the handshake result. -/
def initializeRun (peerInput : List Char) : List Char × Option Capabilities :=
  let p := InitializeRequest dapCliInitArgs 0
  let req := p.1
  let wire := encodeFrame (marshalRequest req)
  let m : Registry := [(req.Seq, 0)]
  let caps :=
    match listenIteration m peerInput with
    | .next _ d _ _ =>
      (match takeDelivery (some 0) d with
       | some resp =>
         if resp.Success then jsonToCapabilities resp.Body else none
       | none => none)
    | _ => none
  (wire, caps)


/-- The failing scenario of claim C3: the initialize waiter is registered
under sequence 1 on channel 0, the caller is blocked receiving on that
channel, and the peer stream is already at end of file. -/
def eofScenarioStart : ClientState :=
  { registry := [(1, 0)], input := [], readerAlive := true,
    waitingOn := some 0, received := none }

/-- The same scenario after the reader loop has taken its clean-EOF exit. -/
def eofScenarioStopped : ClientState :=
  { registry := [(1, 0)], input := [], readerAlive := false,
    waitingOn := some 0, received := none }


/-- The scenario reply of the spec: a successful initialize response for
request_seq 1 whose body sets supportsConfigurationDoneRequest. -/
def scenarioReplyBody : List Char :=
  chars ("\x7b\"seq\":1,\"type\":\"response\",\"request_seq\":1,\"success\":true,\"command\":\"initialize\",\"body\":\x7b\"supportsConfigurationDoneRequest\":true\x7d\x7d")

/-- The wire frame carrying that reply. -/
def scenarioReplyWire : List Char := encodeFrame scenarioReplyBody


/-- A continuation that cannot extend a digit run: empty or starting with a
non-digit.  Every delimiter of compact JSON qualifies. -/
def digitDelim : List Char → Bool
  | [] => true
  | c :: _ => !(isDigitChar c)

/-! ### Concrete sample messages used by witnesses and counterexamples -/

/-- A concrete response answering request 1. -/
def respFor1 : Response :=
  { Seq := 9, Typ := chars ("response"), RequestSeq := 1, Success := true,
    Command := chars ("initialize"), Message := [], Body := .null }

/-- The same response redirected at request 2, which nothing awaits. -/
def respFor2 : Response :=
  { Seq := 9, Typ := chars ("response"), RequestSeq := 2, Success := true,
    Command := chars ("initialize"), Message := [], Body := .null }

/-- The body of a peer event that happens to carry request_seq 1. -/
def eventBody : List Char :=
  chars ("\x7b\"seq\":2,\"type\":\"event\",\"request_seq\":1\x7d")

/-- What that body decodes to. -/
def eventResp : Response :=
  { Seq := 2, Typ := chars ("event"), RequestSeq := 1, Success := false,
    Command := [], Message := [], Body := .null }

/-- A concrete response exercising every field shape, for the C1 witness. -/
def roundTripSample : Response :=
  { Seq := 7, Typ := chars ("response"), RequestSeq := -3, Success := false,
    Command := chars ("eval"), Message := chars ("a b"),
    Body := .obj [(chars ("x"), .arr [.num (-2), .str (chars ("q\"<&>")), .null, .bool true]),
                  (chars ("y"), .obj [])] }

/-! ### Reference forms written from the spec, for comparison theorems only -/

/-- Modelled from the spec for comparison (claim C4): split a header line at
the FIRST colon; the name is what stands before it, the value everything
after it. -/
def specFirstColonSplit : List Char → Option (List Char × List Char)
  | [] => none
  | c :: rest =>
    if c = ':' then some ([], rest)
    else (specFirstColonSplit rest).map fun p => (c :: p.1, p.2)

/-- Modelled from the spec for comparison (claim C4): first-colon split with
both sides trimmed. -/
def specHeaderLine (line : List Char) : Option (List Char × List Char) :=
  (specFirstColonSplit line).map fun p => (goTrimSpace p.1, goTrimSpace p.2)


/-! ### Header blocks as wire text (for the duplicate-header theorems) -/

/-- One frame's header block as wire text: each line followed by CRLF, then
the blank line, then the rest of the stream. -/
def headerBlock (lines : List (List Char)) (tail : List Char) : List Char :=
  (lines.flatMap fun l => l ++ ['\r', '\n']) ++ '\r' :: '\n' :: tail

/-- The parsed entry of one nonblank header line, when it has one. -/
def entryOf (l : List Char) : Option (List Char × List Char) :=
  match processHeaderLine (goTrimSpace l) with
  | .entry n v => some (n, v)
  | .panicNoColon => none

/-- The header map after the loop has folded the given lines over a starting
map. -/
def applyEntries (hs : List (List Char × List Char)) (lines : List (List Char)) :
    List (List Char × List Char) :=
  lines.foldl (fun h l =>
    match entryOf l with
    | some (n, v) => hdrInsert h n v
    | none => h) hs

/-- The value of the LAST line among the given ones whose parsed name is the
given one, found by scanning from the end. -/
def lastValueOf (lines : List (List Char)) (name : List Char) : Option (List Char) :=
  lines.reverse.findSome? fun l =>
    match entryOf l with
    | some (n, v) => if n == name then some v else none
    | none => none

/-! ## Lemmas -/

theorem splitOnColon_no_colon {s : List Char} (h : ':' ∉ s) : splitOnColon s = [s] := by
  induction s with
  | nil => rfl
  | cons c cs ih =>
    have hc : ¬ c = ':' := fun e => h (e ▸ List.mem_cons_self c cs)
    have hcs : ':' ∉ cs := fun m => h (List.mem_cons_of_mem c m)
    simp [splitOnColon, hc, ih hcs]

theorem splitOnColon_append {a : List Char} (b : List Char) (h : ':' ∉ a) :
    splitOnColon (a ++ ':' :: b) = a :: splitOnColon b := by
  induction a with
  | nil => simp [splitOnColon]
  | cons c cs ih =>
    have hc : ¬ c = ':' := fun e => h (e ▸ List.mem_cons_self c cs)
    have hcs : ':' ∉ cs := fun m => h (List.mem_cons_of_mem c m)
    simp only [List.cons_append, splitOnColon, if_neg hc, List.append_eq, ih hcs]

theorem splitOnColon_head (s : List Char) :
    ∃ ps, splitOnColon s = (s.takeWhile fun c => c != ':') :: ps := by
  induction s with
  | nil => exact ⟨[], rfl⟩
  | cons c cs ih =>
    by_cases hc : c = ':'
    · exact ⟨splitOnColon cs, by simp [splitOnColon, hc, List.takeWhile_cons]⟩
    · obtain ⟨ps, hps⟩ := ih
      refine ⟨ps, ?_⟩
      simp [splitOnColon, hc, hps, List.takeWhile_cons]

/-! ## Claim C4: header lines are split at a colon, values trimmed -/

/-- C4, amended: listen splits a header line on EVERY colon and keeps parts
zero and one, so the recorded value is the trimmed text between the first and
the second colon, not the whole remainder after the first colon. -/
theorem c4_header_value_is_first_segment (pre post : List Char) (h : ':' ∉ pre) :
    processHeaderLine (pre ++ ':' :: post) =
      HeaderLine.entry (goTrimSpace pre) (goTrimSpace (post.takeWhile fun c => c != ':')) := by
  obtain ⟨ps, hps⟩ := splitOnColon_head post
  simp [processHeaderLine, splitOnColon_append post h, hps]

/-- C4 witness: the amended statement at the line Foo: a:b. -/
theorem c4_header_value_is_first_segment_witness :
    processHeaderLine (chars ("Foo") ++ ':' :: chars (" a:b")) =
      HeaderLine.entry (goTrimSpace (chars ("Foo")))
        (goTrimSpace ((chars (" a:b")).takeWhile fun c => c != ':')) :=
  c4_header_value_is_first_segment (chars ("Foo")) (chars (" a:b")) (by decide)

/-- C4 counterexample: on the line Foo: a:b the source records the value a,
not the remainder a:b after the first colon that the claim requires. -/
theorem c4_colon_in_value_truncated :
    processHeaderLine (chars ("Foo: a:b")) = HeaderLine.entry (chars ("Foo")) (chars ("a")) ∧
    specHeaderLine (chars ("Foo: a:b")) = some (chars ("Foo"), chars ("a:b")) ∧
    HeaderLine.entry (chars ("Foo")) (chars ("a")) ≠
      HeaderLine.entry (chars ("Foo")) (chars ("a:b")) := by
  refine ⟨rfl, rfl, ?_⟩
  decide

/-! ## Claim C5: a header line without a colon -/

/-- C5: a nonblank header line without a colon yields a one-element slice
from strings.Split, and listen's unguarded parts[1] is an out-of-bounds
access, a runtime panic, not the distinct malformed-header rejection the
spec requires. -/
theorem c5_missing_colon_panics :
    splitOnColon (chars ("Accept")) = [chars ("Accept")] ∧
    processHeaderLine (chars ("Accept")) = HeaderLine.panicNoColon ∧
    readFrame (chars ("Accept\r\n\r\n")) = FrameResult.panicHeaderColon :=
  ⟨rfl, rfl, rfl⟩

/-! ## Registry lemmas -/

theorem regLookup_cons (p : Int × Nat) (ps : Registry) (q : Int) :
    regLookup (p :: ps) q = if p.1 = q then some p.2 else regLookup ps q := by
  simp only [regLookup, List.find?_cons]
  by_cases h : p.1 = q
  · simp [h]
  · have hb : (p.1 == q) = false := beq_eq_false_iff_ne.mpr h
    simp [hb, h]

theorem regRemove_cons (p : Int × Nat) (ps : Registry) (k : Int) :
    regRemove (p :: ps) k = if p.1 = k then regRemove ps k else p :: regRemove ps k := by
  by_cases h : p.1 = k <;> simp [regRemove, List.filter_cons, h]

theorem regLookup_remove_self (m : Registry) (k : Int) :
    regLookup (regRemove m k) k = none := by
  induction m with
  | nil => rfl
  | cons p ps ih =>
    rw [regRemove_cons]
    by_cases h : p.1 = k
    · simpa [h] using ih
    · rw [if_neg h, regLookup_cons, if_neg h]
      exact ih

theorem regLookup_remove_other (m : Registry) {k q : Int} (h : q ≠ k) :
    regLookup (regRemove m k) q = regLookup m q := by
  induction m with
  | nil => rfl
  | cons p ps ih =>
    rw [regRemove_cons, regLookup_cons]
    by_cases hp : p.1 = k
    · rw [if_pos hp, ih]
      have hq : ¬ p.1 = q := by rw [hp]; exact fun e => h e.symm
      rw [if_neg hq]
    · rw [if_neg hp, regLookup_cons, ih]

/-! ## Claim C2: resolve delivers exactly once and removes, or discards -/

/-- C2, amended: when a channel is registered under the request_seq of an
incoming response, listen sends the response on it exactly once, closes it,
and deletes the entry, leaving every other entry untouched; when none is
registered the response is discarded silently, with no send, no log line and
no change to the registry. -/
theorem c2_resolve_once_or_silent_discard (m : Registry) (resp : Response) :
    (∀ ch, regLookup m resp.RequestSeq = some ch →
      (dispatchResponse m resp).delivered = [(ch, resp)] ∧
      (dispatchResponse m resp).closed = [ch] ∧
      regLookup (dispatchResponse m resp).registry resp.RequestSeq = none ∧
      ∀ k, k ≠ resp.RequestSeq →
        regLookup (dispatchResponse m resp).registry k = regLookup m k) ∧
    (regLookup m resp.RequestSeq = none →
      (dispatchResponse m resp).delivered = [] ∧
      (dispatchResponse m resp).logged = [] ∧
      (dispatchResponse m resp).registry = m) := by
  constructor
  · intro ch hch
    refine ⟨?_, ?_, ?_, ?_⟩
    · simp [dispatchResponse, hch]
    · simp [dispatchResponse, hch]
    · simp [dispatchResponse, hch, regLookup_remove_self]
    · intro k hk
      simp [dispatchResponse, hch, regLookup_remove_other m hk]
  · intro hnone
    refine ⟨?_, ?_, ?_⟩ <;> simp [dispatchResponse, hnone]


/-- C2 witness: the amended statement on the one-waiter registry. -/
theorem c2_resolve_once_or_silent_discard_witness :
    (dispatchResponse [(1, 7)] respFor1).delivered = [(7, respFor1)] ∧
    regLookup (dispatchResponse [(1, 7)] respFor1).registry 1 = none ∧
    regLookup (dispatchResponse [(1, 7)] respFor1).registry 2 = regLookup [(1, 7)] 2 := by
  have h := (c2_resolve_once_or_silent_discard [(1, 7)] respFor1).1 7 rfl
  exact ⟨h.1, h.2.2.1, h.2.2.2 2 (by decide)⟩


/-- C2 counterexample: an unmatched response is dropped without any log line
(the logged output of the step is empty), where the claim requires it to be
logged; the waiter under 1 is indeed unaffected. -/
theorem c2_unmatched_response_unlogged :
    regLookup [(1, 7)] respFor2.RequestSeq = none ∧
    (dispatchResponse [(1, 7)] respFor2).logged = [] ∧
    (dispatchResponse [(1, 7)] respFor2).delivered = [] ∧
    (dispatchResponse [(1, 7)] respFor2).registry = [(1, 7)] :=
  ⟨rfl, rfl, rfl, rfl⟩

/-! ## Claim C8: dispatch and the kind discriminator -/

/-- C8, amended: listen resolves by request_seq alone and never inspects the
decoded type field: delivery happens exactly when a waiter is registered
under the request_seq, and changing the kind discriminator of the message
changes nothing about whether it is delivered. -/
theorem c8_dispatch_ignores_kind (m : Registry) (resp : Response) (t : List Char) :
    ((dispatchResponse m resp).delivered ≠ [] ↔ (regLookup m resp.RequestSeq).isSome) ∧
    (dispatchResponse m { resp with Typ := t }).delivered.length =
      (dispatchResponse m resp).delivered.length ∧
    (dispatchResponse m { resp with Typ := t }).registry =
      (dispatchResponse m resp).registry := by
  match h : regLookup m resp.RequestSeq with
  | some ch => simp [dispatchResponse, h]
  | none => simp [dispatchResponse, h]



/-- C8 counterexample: a decoded message of kind event whose request_seq
matches the registered waiter is delivered to it (and the waiter consumed),
where the claim says a non-response kind is never delivered. -/
theorem c8_event_delivered_to_waiter :
    unmarshalResponse eventBody = some eventResp ∧
    eventResp.Typ ≠ chars ("response") ∧
    listenIteration [(1, 7)] (encodeFrame eventBody) =
      .next [] [(7, eventResp)] [7] [] := by
  refine ⟨rfl, ?_, rfl⟩
  decide

/-! ## Header block lemmas (for claims C10, C7, C1) -/

theorem readLine_append (l rest : List Char) (h : '\n' ∉ l) :
    readLine (l ++ '\n' :: rest) = some (l ++ ['\n'], rest) := by
  induction l with
  | nil => simp [readLine]
  | cons c cs ih =>
    have hc : ¬ c = '\n' := fun e => h (e ▸ List.mem_cons_self c cs)
    have hcs : '\n' ∉ cs := fun m => h (List.mem_cons_of_mem c m)
    simp only [List.cons_append, readLine, if_neg hc, List.append_eq, ih hcs,
      Option.map_some']

theorem goTrimSpace_append_ws (a : List Char) {b : List Char}
    (hb : ∀ c ∈ b, isWsChar c) : goTrimSpace (a ++ b) = goTrimSpace a := by
  have hbnil : b.dropWhile isWsChar = [] := List.dropWhile_eq_nil_iff.mpr hb
  have hbrev : b.reverse.dropWhile isWsChar = [] :=
    List.dropWhile_eq_nil_iff.mpr fun c hc => hb c (List.mem_reverse.mp hc)
  unfold goTrimSpace
  rw [List.dropWhile_append]
  by_cases ha : (a.dropWhile isWsChar).isEmpty
  · rw [if_pos ha, hbnil]
    rw [List.isEmpty_iff] at ha
    rw [ha]
  · rw [if_neg ha, List.reverse_append, List.dropWhile_append, hbrev]
    simp

theorem hdrLookup_insert (hs : List (List Char × List Char)) (k v q : List Char) :
    hdrLookup (hdrInsert hs k v) q = if k == q then some v else hdrLookup hs q := by
  by_cases h : k == q
  · simp only [hdrInsert, hdrLookup, List.find?_cons, h]
    rfl
  · simp only [hdrInsert, hdrLookup, List.find?_cons]
    rw [Bool.not_eq_true] at h
    simp [h]

/-- Entries of a line, as the loop reads them: the entry form inverts. -/
theorem entryOf_eq_some {l n v : List Char} (h : entryOf l = some (n, v)) :
    processHeaderLine (goTrimSpace l) = .entry n v := by
  unfold entryOf at h
  match h2 : processHeaderLine (goTrimSpace l) with
  | .entry n2 v2 => rw [h2] at h; cases h; rfl
  | .panicNoColon => rw [h2] at h; cases h

theorem readHeadersAux_headerBlock (lines : List (List Char)) :
    ∀ (fuel : Nat) (hs : List (List Char × List Char)) (tail : List Char),
      lines.length < fuel →
      (∀ l ∈ lines, '\n' ∉ l) →
      (∀ l ∈ lines, goTrimSpace l ≠ []) →
      (∀ l ∈ lines, (entryOf l).isSome) →
      readHeadersAux fuel hs (headerBlock lines tail) = .ok (applyEntries hs lines) tail := by
  induction lines with
  | nil =>
    intro fuel hs tail hfuel _ _ _
    match fuel, hfuel with
    | f + 1, _ =>
      show readHeadersAux (f + 1) hs ('\r' :: '\n' :: tail) = .ok hs tail
      have hline : readLine ('\r' :: '\n' :: tail) = some (['\r', '\n'], tail) := by
        simp [readLine]
      have hblank : goTrimSpace ['\r', '\n'] = [] := by decide
      simp [readHeadersAux, hline, hblank]
  | cons l ls ih =>
    intro fuel hs tail hfuel hnl hne hok
    match fuel, hfuel with
    | f + 1, hfuel =>
      obtain ⟨⟨n, v⟩, he⟩ := Option.isSome_iff_exists.mp (hok l (List.mem_cons_self l ls))
      have hlnl : '\n' ∉ l := hnl l (List.mem_cons_self l ls)
      have hblock : headerBlock (l :: ls) tail =
          (l ++ ['\r']) ++ '\n' :: headerBlock ls tail := by
        simp [headerBlock, List.append_assoc]
      have hpre : '\n' ∉ l ++ ['\r'] := by
        intro m
        rcases List.mem_append.mp m with m1 | m2
        · exact hlnl m1
        · simp at m2
      have hline := readLine_append (l ++ ['\r']) (headerBlock ls tail) hpre
      have htrim : goTrimSpace ((l ++ ['\r']) ++ ['\n']) = goTrimSpace l := by
        rw [List.append_assoc]
        exact goTrimSpace_append_ws l (by decide)
      have hne2 : (goTrimSpace l).isEmpty = false := by
        cases hgl : goTrimSpace l with
        | nil => exact absurd hgl (hne l (List.mem_cons_self l ls))
        | cons a as => rfl
      have hstep : readHeadersAux (f + 1) hs ((l ++ ['\r']) ++ '\n' :: headerBlock ls tail) =
          readHeadersAux f (hdrInsert hs n v) (headerBlock ls tail) := by
        simp only [readHeadersAux, hline, htrim, hne2, Bool.false_eq_true, if_false,
          entryOf_eq_some he]
      rw [hblock, hstep,
        ih f (hdrInsert hs n v) tail (by simpa using Nat.lt_of_succ_lt_succ hfuel)
          (fun x m => hnl x (List.mem_cons_of_mem l m))
          (fun x m => hne x (List.mem_cons_of_mem l m))
          (fun x m => hok x (List.mem_cons_of_mem l m))]
      simp only [applyEntries, List.foldl_cons, he]

theorem headerBlock_length (lines : List (List Char)) (tail : List Char) :
    lines.length ≤ (headerBlock lines tail).length := by
  induction lines with
  | nil => simp [headerBlock]
  | cons l ls ih =>
    have hblock : headerBlock (l :: ls) tail = (l ++ ['\r', '\n']) ++ headerBlock ls tail := by
      simp [headerBlock, List.append_assoc]
    rw [hblock]
    simp only [List.length_append, List.length_cons]
    omega

theorem findSome?_or_split {α β : Type} (f : α → Option β) (l1 l2 : List α) :
    (l1 ++ l2).findSome? f = (l1.findSome? f).or (l2.findSome? f) := by
  induction l1 with
  | nil => simp [List.findSome?]
  | cons a as ih =>
    cases ha : f a with
    | some b => simp [List.findSome?, ha]
    | none => simp [List.findSome?, ha, ih]

theorem hdrLookup_applyEntries (lines : List (List Char)) :
    ∀ (hs : List (List Char × List Char)) (name : List Char),
      hdrLookup (applyEntries hs lines) name =
        (lastValueOf lines name).or (hdrLookup hs name) := by
  induction lines with
  | nil => intro hs name; simp [applyEntries, lastValueOf, List.findSome?]
  | cons l ls ih =>
    intro hs name
    have hone : List.findSome? (fun x => match entryOf x with
        | some (n, v) => if n == name then some v else none
        | none => none) [l] = (match entryOf l with
        | some (n, v) => if n == name then some v else none
        | none => none) := by
      cases he2 : entryOf l with
      | none => simp [List.findSome?, he2]
      | some nv =>
        obtain ⟨n, v⟩ := nv
        by_cases hn : (n == name) = true
        · simp [List.findSome?, he2, hn]
        · rw [Bool.not_eq_true] at hn
          simp [List.findSome?, he2, hn]
    have hlast : lastValueOf (l :: ls) name =
        (lastValueOf ls name).or
          (match entryOf l with
           | some (n, v) => if n == name then some v else none
           | none => none) := by
      unfold lastValueOf
      rw [List.reverse_cons, findSome?_or_split, hone]
    cases he : entryOf l with
    | some nv =>
      obtain ⟨n, v⟩ := nv
      have hstep : applyEntries hs (l :: ls) = applyEntries (hdrInsert hs n v) ls := by
        simp only [applyEntries, List.foldl_cons, he]
      rw [hstep, ih, hlast, he, hdrLookup_insert]
      by_cases hn : (n == name) = true
      · rw [if_pos hn]
        simp [hn, Option.or_assoc]
      · rw [if_neg (by simp [hn])]
        rw [Bool.not_eq_true] at hn
        simp [hn, Option.or_assoc]
    | none =>
      have hstep : applyEntries hs (l :: ls) = applyEntries hs ls := by
        simp only [applyEntries, List.foldl_cons, he]
      rw [hstep, ih, hlast, he]
      simp [Option.or_assoc]

/-! ## Claim C10: a repeated header name keeps the last value -/

/-- C10: reading a header block records each parsed line into the map in
order, a later line for a name overwriting an earlier one, so the lookup the
body phase uses yields the value of the LAST occurrence of a name. -/
theorem c10_duplicate_header_last_wins (lines : List (List Char)) (tail name : List Char)
    (hnl : ∀ l ∈ lines, '\n' ∉ l)
    (hne : ∀ l ∈ lines, goTrimSpace l ≠ [])
    (hok : ∀ l ∈ lines, (entryOf l).isSome) :
    readHeaders (headerBlock lines tail) = .ok (applyEntries [] lines) tail ∧
    hdrLookup (applyEntries [] lines) name = lastValueOf lines name := by
  constructor
  · exact readHeadersAux_headerBlock lines _ [] tail
      (by have := headerBlock_length lines tail; omega) hnl hne hok
  · rw [hdrLookup_applyEntries]
    cases lastValueOf lines name with
    | none => simp [hdrLookup]
    | some x => simp [hdrLookup]

/-- C10 witness: a block carrying Content-Length twice (99 then 2) decodes
to a map whose Content-Length is 2, the last value; and the full frame read
on that block indeed consumes a 2-character body. -/
theorem c10_duplicate_header_last_wins_witness :
    (readHeaders (headerBlock [chars ("Content-Length: 99"), chars ("Content-Length: 2")]
        (chars ("\x7b\x7d"))) =
      .ok (applyEntries [] [chars ("Content-Length: 99"), chars ("Content-Length: 2")])
        (chars ("\x7b\x7d")) ∧
     hdrLookup (applyEntries [] [chars ("Content-Length: 99"), chars ("Content-Length: 2")])
        (chars ("Content-Length")) =
      lastValueOf [chars ("Content-Length: 99"), chars ("Content-Length: 2")]
        (chars ("Content-Length"))) ∧
    lastValueOf [chars ("Content-Length: 99"), chars ("Content-Length: 2")]
        (chars ("Content-Length")) = some (chars ("2")) ∧
    readFrame (headerBlock [chars ("Content-Length: 99"), chars ("Content-Length: 2")]
        (chars ("\x7b\x7d"))) = .frame zeroResponse [] :=
  ⟨c10_duplicate_header_last_wins
      [chars ("Content-Length: 99"), chars ("Content-Length: 2")]
      (chars ("\x7b\x7d")) (chars ("Content-Length"))
      (by decide) (by decide) (by decide),
    by decide, rfl⟩

/-! ## Claim C6: the Content-Length value and the exact body read -/

/-- C6, amended: the body phase of listen parses the Content-Length value
with Atoi, and the fatal bad-length error happens exactly when that parse
fails; a parse CAN succeed with a negative value (Atoi accepts a sign), and
then make with a negative length panics instead of reporting a
malformed-header error; on a nonnegative value with enough input, exactly
that many characters are taken as the opaque body and handed to the JSON
decoder. -/
theorem c6_length_parse_and_exact_read (clv rest : List Char) :
    (goAtoi clv = none ↔ readBody clv rest = .fatalBadLength) ∧
    (∀ n : Int, goAtoi clv = some n → n < 0 →
      readBody clv rest = .panicNegativeLength) ∧
    (∀ n : Int, goAtoi clv = some n → 0 ≤ n → n ≤ (rest.length : Int) →
      readBody clv rest =
        (match unmarshalResponse (rest.take n.toNat) with
         | some resp => .frame resp (rest.drop n.toNat)
         | none => .fatalBadJson)) := by
  refine ⟨⟨?_, ?_⟩, ?_, ?_⟩
  · intro h
    simp [readBody, h]
  · intro h
    match hg : goAtoi clv with
    | none => rfl
    | some n =>
      exfalso
      simp only [readBody, hg] at h
      by_cases h1 : n < 0
      · rw [if_pos h1] at h
        exact FrameResult.noConfusion h
      · rw [if_neg h1] at h
        by_cases h2 : n ≤ (rest.length : Int)
        · rw [if_pos h2] at h
          cases hu : unmarshalResponse (rest.take n.toNat) <;> rw [hu] at h <;>
            exact FrameResult.noConfusion h
        · rw [if_neg h2] at h
          by_cases h3 : rest.isEmpty <;> simp [h3] at h
  · intro n hg hneg
    simp [readBody, hg, hneg]
  · intro n hg h0 hlen
    have hnot : ¬ n < 0 := by omega
    simp only [readBody, hg, if_neg hnot, if_pos hlen]

/-- C6 witness: the amended statement at value 4 and body null!!. -/
theorem c6_length_parse_and_exact_read_witness :
    (goAtoi (chars ("4")) = none ↔
      readBody (chars ("4")) (chars ("null!!")) = .fatalBadLength) ∧
    (∀ n : Int, goAtoi (chars ("4")) = some n → n < 0 →
      readBody (chars ("4")) (chars ("null!!")) = .panicNegativeLength) ∧
    (∀ n : Int, goAtoi (chars ("4")) = some n → 0 ≤ n →
      n ≤ ((chars ("null!!")).length : Int) →
      readBody (chars ("4")) (chars ("null!!")) =
        (match unmarshalResponse ((chars ("null!!")).take n.toNat) with
         | some resp => .frame resp ((chars ("null!!")).drop n.toNat)
         | none => .fatalBadJson)) :=
  c6_length_parse_and_exact_read (chars ("4")) (chars ("null!!"))

/-- C6 counterexample: the value -1 is numeric for Atoi and parses to a
negative integer, so no malformed-header error is raised; the body phase then
panics at make([]byte, -1) instead.  The claim's parse of a NON-NEGATIVE
integer is not what the source does. -/
theorem c6_negative_length_parses :
    goAtoi (chars ("-1")) = some (-1) ∧
    readBody (chars ("-1")) (chars ("xy")) = .panicNegativeLength ∧
    readFrame (chars ("Content-Length: -1\r\n\r\nxy")) = .panicNegativeLength :=
  ⟨rfl, rfl, rfl⟩

/-! ## Claim C7: end of stream at a header line versus mid-body -/

/-- C7, amended: end of input while waiting for a header line (no newline
left in the stream) ends the loop cleanly; after a length header promised n
characters, a stream holding SOME but fewer than n is a fatal truncation
error, but a stream holding NONE of them hits the bare io.EOF return and is
treated as a clean shutdown too, not as truncation. -/
theorem c7_eof_split (pre clv rest : List Char) (n : Int) :
    ('\n' ∉ pre → readFrame pre = .eofClean) ∧
    (goAtoi clv = some n → 0 < n →
      ((rest = [] → readBody clv rest = .eofClean) ∧
       (rest ≠ [] → (rest.length : Int) < n → readBody clv rest = .fatalTruncated))) := by
  constructor
  · intro hnl
    have hline : readLine pre = none := by
      induction pre with
      | nil => rfl
      | cons c cs ih =>
        have hc : ¬ c = '\n' := fun e => hnl (e ▸ List.mem_cons_self c cs)
        have hcs : '\n' ∉ cs := fun m => hnl (List.mem_cons_of_mem c m)
        simp [readLine, hc, ih hcs]
    unfold readFrame readHeaders
    simp [readHeadersAux, hline]
  · intro hg hpos
    constructor
    · intro hrest
      subst hrest
      have hn0 : ¬ n < 0 := by omega
      simp only [readBody, hg, if_neg hn0]
      rw [if_neg (by simpa using hpos)]
      rfl
    · intro hne hlt
      have hgt : ¬ n ≤ ((rest.length : Int)) := by omega
      have hn0 : ¬ n < 0 := by omega
      have hemp : rest.isEmpty = false := by
        cases rest with
        | nil => exact absurd rfl hne
        | cons a as => rfl
      simp [readBody, hg, hn0, hgt, hemp]

/-- C7 witness: the amended statement at the frame of the spec's scenario,
Content-Length 5 with only the 3 characters abc left. -/
theorem c7_eof_split_witness :
    ('\n' ∉ chars ("Content-Length: 5\r") →
      readFrame (chars ("Content-Length: 5\r")) = .eofClean) ∧
    (goAtoi (chars ("5")) = some 5 → 0 < (5 : Int) →
      ((chars ("abc") = [] → readBody (chars ("5")) (chars ("abc")) = .eofClean) ∧
       (chars ("abc") ≠ [] → ((chars ("abc")).length : Int) < 5 →
         readBody (chars ("5")) (chars ("abc")) = .fatalTruncated))) :=
  c7_eof_split (chars ("Content-Length: 5\r")) (chars ("5")) (chars ("abc")) 5

/-- C7 counterexample: a frame promising 5 characters followed by none at
all ends with the clean-shutdown return (io.ReadFull yields bare io.EOF when
nothing was read), where the claim requires a truncation error; with 3 of
the 5 characters present the truncation error does occur. -/
theorem c7_zero_bytes_is_clean_eof :
    readFrame (chars ("Content-Length: 5\r\n\r\n")) = .eofClean ∧
    readFrame (chars ("Content-Length: 5\r\n\r\nabc")) = .fatalTruncated :=
  ⟨rfl, rfl⟩

/-! ## Claim C3: a blocked await after the reader loop exits -/

theorem listenIteration_empty (m : Registry) : listenIteration m [] = .stop := rfl

/-- C3: in the source, a blocked receive in initialize is completed only by
the channel send in listen; there is no timeout and no connection-closed
release.  From the state where the stream is at end of file and the caller
is blocked, every reachable state still has the caller blocked with nothing
received: the await hangs forever after the reader loop exits. -/
theorem c3_blocked_receive_never_completes :
    ∀ s : ClientState, Relation.ReflTransGen Step eofScenarioStart s →
      s.input = [] ∧ s.received = none ∧ s.waitingOn = some 0 := by
  intro s h
  induction h with
  | refl => exact ⟨rfl, rfl, rfl⟩
  | tail _ hstep ih =>
    obtain ⟨hin, hrec, hwait⟩ := ih
    cases hstep with
    | reader m d cl rest halive hiter =>
      rw [hin, listenIteration_empty] at hiter
      exact ListenStep.noConfusion hiter
    | readerStop halive hiter =>
      exact ⟨hin, hrec, hwait⟩
    | readerDie halive hiter =>
      rw [hin, listenIteration_empty] at hiter
      exact ListenStep.noConfusion hiter

/-- C3 witness: the state after the reader takes its clean-EOF exit is
reachable in one step, and there the caller is still blocked with nothing
received. -/
theorem c3_blocked_receive_never_completes_witness :
    eofScenarioStopped.input = [] ∧ eofScenarioStopped.received = none ∧
      eofScenarioStopped.waitingOn = some 0 :=
  c3_blocked_receive_never_completes eofScenarioStopped
    (Relation.ReflTransGen.single (Step.readerStop eofScenarioStart rfl rfl))

/-! ## Claim C9: the initialize handshake scenario -/

set_option maxRecDepth 20000 in
/-- C9: from a fresh connection the first request carries sequence number 1,
and on the scripted successful reply for request_seq 1 whose body holds
supportsConfigurationDoneRequest true, the handshake decodes Capabilities
with that flag set (the key matches the field name case-insensitively, the
empty json tag falling back to the field name). -/
theorem c9_handshake_capability_flag :
    (InitializeRequest dapCliInitArgs 0).1.Seq = 1 ∧
    (initializeRun scenarioReplyWire).1 =
      encodeFrame (marshalRequest (InitializeRequest dapCliInitArgs 0).1) ∧
    (initializeRun scenarioReplyWire).2 =
      some { zeroCapabilities with SupportsConfigurationDoneRequest := true } :=
  ⟨rfl, rfl, rfl⟩

/-! ## Digit and number lemmas (towards the round trip of claim C1) -/

theorem digitChar_spec : ∀ k : Nat, k < 10 →
    isDigitChar (digitChar k) = true ∧ (digitChar k).toNat - '0'.toNat = k := by
  intro k h
  match k, h with
  | 0, _ => decide
  | 1, _ => decide
  | 2, _ => decide
  | 3, _ => decide
  | 4, _ => decide
  | 5, _ => decide
  | 6, _ => decide
  | 7, _ => decide
  | 8, _ => decide
  | 9, _ => decide
  | n + 10, h => exact absurd h (by omega)

theorem digit_ne {c : Char} (h : isDigitChar c = true) (d : Char)
    (hd : isDigitChar d = false) : c ≠ d := by
  intro e
  rw [e, hd] at h
  exact Bool.noConfusion h

theorem digit_not_ws {c : Char} (h : isDigitChar c = true) : isWsChar c = false := by
  simp only [isWsChar, Bool.or_eq_false_iff, decide_eq_false_iff_not]
  refine ⟨⟨⟨⟨⟨?_, ?_⟩, ?_⟩, ?_⟩, ?_⟩, ?_⟩ <;>
    (intro e; subst e; exact absurd h (by decide))

theorem natCharsAux_spec : ∀ (fuel n : Nat), n < fuel →
    natCharsAux fuel n ≠ [] ∧ (∀ c ∈ natCharsAux fuel n, isDigitChar c = true) ∧
      decimalVal (natCharsAux fuel n) = n := by
  intro fuel
  induction fuel with
  | zero => intro n h; exact absurd h (by omega)
  | succ f ih =>
    intro n h
    by_cases h10 : n < 10
    · refine ⟨?_, ?_, ?_⟩
      · simp [natCharsAux, h10]
      · intro c hc
        simp only [natCharsAux, if_pos h10, List.mem_singleton] at hc
        subst hc
        exact (digitChar_spec n h10).1
      · simp only [natCharsAux, if_pos h10, decimalVal, List.foldl_cons, List.foldl_nil]
        rw [(digitChar_spec n h10).2]
        omega
    · have hlt : n / 10 < f := by
        have := Nat.div_lt_self (by omega : 0 < n) (by omega : 1 < 10)
        omega
      obtain ⟨hne, hdig, hval⟩ := ih (n / 10) hlt
      have hmod := digitChar_spec (n % 10) (Nat.mod_lt n (by omega))
      refine ⟨?_, ?_, ?_⟩
      · simp [natCharsAux, h10]
      · intro c hc
        simp only [natCharsAux, if_neg h10, List.mem_append, List.mem_singleton] at hc
        rcases hc with hc | hc
        · exact hdig c hc
        · subst hc; exact hmod.1
      · simp only [natCharsAux, if_neg h10, decimalVal, List.foldl_append,
          List.foldl_cons, List.foldl_nil]
        have : List.foldl (fun a c => a * 10 + (c.toNat - '0'.toNat)) 0
            (natCharsAux f (n / 10)) = n / 10 := hval
        rw [this, hmod.2]
        omega

theorem natChars_ne_nil (n : Nat) : natChars n ≠ [] :=
  (natCharsAux_spec (n + 1) n (by omega)).1

theorem natChars_digits (n : Nat) : ∀ c ∈ natChars n, isDigitChar c = true :=
  (natCharsAux_spec (n + 1) n (by omega)).2.1

theorem decimalVal_natChars (n : Nat) : decimalVal (natChars n) = n :=
  (natCharsAux_spec (n + 1) n (by omega)).2.2

theorem natChars_cons (n : Nat) :
    ∃ c t, natChars n = c :: t ∧ isDigitChar c = true := by
  match h : natChars n with
  | [] => exact absurd h (natChars_ne_nil n)
  | c :: t => exact ⟨c, t, rfl, natChars_digits n c (h ▸ List.mem_cons_self c t)⟩

theorem spanDigits_stop {rest : List Char} (h : digitDelim rest = true) :
    spanDigits rest = ([], rest) := by
  cases rest with
  | nil => rfl
  | cons c cs =>
    simp only [digitDelim, Bool.not_eq_true'] at h
    simp [spanDigits, h]

theorem spanDigits_run (ds : List Char) (hds : ∀ c ∈ ds, isDigitChar c = true)
    {rest : List Char} (hr : digitDelim rest = true) :
    spanDigits (ds ++ rest) = (ds, rest) := by
  induction ds with
  | nil => simpa using spanDigits_stop hr
  | cons c cs ih =>
    have hc : isDigitChar c = true := hds c (List.mem_cons_self c cs)
    have ht := ih fun x m => hds x (List.mem_cons_of_mem c m)
    simp [spanDigits, hc, ht]

theorem parseIntTok_intChars (i : Int) {rest : List Char} (hr : digitDelim rest = true) :
    parseIntTok (intChars i ++ rest) = some (i, rest) := by
  by_cases hi : i < 0
  · have harg : intChars i ++ rest = '-' :: (natChars i.natAbs ++ rest) := by
      simp [intChars, hi]
    rw [harg]
    simp only [parseIntTok, if_pos rfl,
      spanDigits_run (natChars i.natAbs) (natChars_digits i.natAbs) hr]
    have hne : (natChars i.natAbs).isEmpty = false := by
      cases h : natChars i.natAbs with
      | nil => exact absurd h (natChars_ne_nil _)
      | cons a as => rfl
    simp only [hne, Bool.false_eq_true, if_false, decimalVal_natChars]
    have hv : -((i.natAbs : Nat) : Int) = i := by omega
    rw [hv]
    simp
  · obtain ⟨c, t, hct, hc⟩ := natChars_cons i.natAbs
    have harg : intChars i ++ rest = c :: (t ++ rest) := by
      simp [intChars, hi, hct]
    rw [harg]
    have hcm : ¬ c = '-' := digit_ne hc '-' (by decide)
    simp only [parseIntTok, if_neg hcm]
    have hds : spanDigits (c :: (t ++ rest)) = (c :: t, rest) := by
      have := spanDigits_run (c :: t) (by rw [← hct]; exact natChars_digits i.natAbs) hr
      simpa using this
    rw [hds]
    have hne : (c :: t).isEmpty = false := rfl
    simp only [hne, Bool.false_eq_true, if_false]
    have hdv : decimalVal (c :: t) = i.natAbs := by rw [← hct]; exact decimalVal_natChars _
    rw [hdv]
    have : ((i.natAbs : Nat) : Int) = i := by omega
    rw [this]

/-! ## String escape lemmas -/

theorem hexCharVal_hexDigitChar : ∀ k : Nat, k < 16 →
    hexCharVal (hexDigitChar k) = some k := by
  intro k h
  match k, h with
  | 0, _ => decide
  | 1, _ => decide
  | 2, _ => decide
  | 3, _ => decide
  | 4, _ => decide
  | 5, _ => decide
  | 6, _ => decide
  | 7, _ => decide
  | 8, _ => decide
  | 9, _ => decide
  | 10, _ => decide
  | 11, _ => decide
  | 12, _ => decide
  | 13, _ => decide
  | 14, _ => decide
  | 15, _ => decide
  | n + 16, h => exact absurd h (by omega)

theorem parseStrBody_escape (c : Char) (more : List Char) :
    parseStrBody (goEscapeChar c ++ more) =
      (parseStrBody more).map fun p => (c :: p.1, p.2) := by
  unfold goEscapeChar
  by_cases h1 : c = '"'
  · subst h1; rw [if_pos rfl]; rfl
  rw [if_neg h1]
  by_cases h2 : c = '\\'
  · subst h2; rw [if_pos rfl]; rfl
  rw [if_neg h2]
  by_cases h3 : c = '\n'
  · subst h3; rw [if_pos rfl]; rfl
  rw [if_neg h3]
  by_cases h4 : c = '\r'
  · subst h4; rw [if_pos rfl]; rfl
  rw [if_neg h4]
  by_cases h5 : c = '\t'
  · subst h5; rw [if_pos rfl]; rfl
  rw [if_neg h5]
  by_cases h6 : c.toNat < 32
  · rw [if_pos h6]
    have hq : c.toNat / 16 < 16 := by omega
    have hm : c.toNat % 16 < 16 := Nat.mod_lt _ (by omega)
    have h0 : hexCharVal '0' = some 0 := by decide
    simp only [List.cons_append, List.nil_append, parseStrBody,
      hexCharVal_hexDigitChar _ hq, hexCharVal_hexDigitChar _ hm, h0]
    have hvv : ((0 * 16 + 0) * 16 + c.toNat / 16) * 16 + c.toNat % 16 = c.toNat := by omega
    rw [hvv, Char.ofNat_toNat]
    simp
  rw [if_neg h6]
  by_cases h7 : c = '<'
  · subst h7; rw [if_pos rfl]; rfl
  rw [if_neg h7]
  by_cases h8 : c = '>'
  · subst h8; rw [if_pos rfl]; rfl
  rw [if_neg h8]
  by_cases h9 : c = '&'
  · subst h9; rw [if_pos rfl]; rfl
  rw [if_neg h9]
  by_cases h10 : c.toNat = 0x2028
  · rw [if_pos h10]
    have hc : c = Char.ofNat 0x2028 := by
      rw [← h10, Char.ofNat_toNat]
    rw [hc]
    rfl
  rw [if_neg h10]
  by_cases h11 : c.toNat = 0x2029
  · rw [if_pos h11]
    have hc : c = Char.ofNat 0x2029 := by
      rw [← h11, Char.ofNat_toNat]
    rw [hc]
    rfl
  rw [if_neg h11]
  rw [List.singleton_append, parseStrBody.eq_def]
  simp [h1, h2]

theorem parseStrBody_ser (s : List Char) : ∀ more : List Char,
    parseStrBody (s.flatMap goEscapeChar ++ '"' :: more) = some (s, more) := by
  induction s with
  | nil => intro more; simp [parseStrBody]
  | cons c cs ih =>
    intro more
    rw [List.flatMap_cons, List.append_assoc, parseStrBody_escape, ih]
    rfl

/-! ## Rendered-head lemmas: serialized output never starts with whitespace
or a closing token, so the parser's dispatch is determined -/

theorem skipJsonWs_not {c : Char} (t : List Char) (h : jsonWsChar c = false) :
    skipJsonWs (c :: t) = c :: t := by
  simp [skipJsonWs, h]

theorem digit_not_jsonWs {c : Char} (h : isDigitChar c = true) : jsonWsChar c = false := by
  simp only [jsonWsChar, Bool.or_eq_false_iff, decide_eq_false_iff_not]
  refine ⟨⟨⟨?_, ?_⟩, ?_⟩, ?_⟩ <;> (intro e; subst e; exact absurd h (by decide))

theorem jsonSer_head (j : Json) :
    ∃ c t, jsonSer j = c :: t ∧ jsonWsChar c = false ∧ c ≠ ']' ∧ c ≠ '}' := by
  rcases j with _ | b | n | s | xs | kvs
  case num =>
    by_cases hn : n < 0
    · refine ⟨'-', natChars n.natAbs, by simp [jsonSer, intChars, hn], ?_⟩
      refine ⟨?_, ?_, ?_⟩ <;> decide
    · obtain ⟨c, t, hct, hc⟩ := natChars_cons n.natAbs
      refine ⟨c, t, by simp [jsonSer, intChars, hn, hct], digit_not_jsonWs hc,
        digit_ne hc ']' ?_, digit_ne hc '}' ?_⟩ <;> decide
  case bool =>
    rcases b with _ | _
    · refine ⟨'f', _, rfl, ?_⟩
      refine ⟨?_, ?_, ?_⟩ <;> decide
    · refine ⟨'t', _, rfl, ?_⟩
      refine ⟨?_, ?_, ?_⟩ <;> decide
  all_goals refine ⟨_, _, rfl, ?_⟩
  all_goals refine ⟨?_, ?_, ?_⟩ <;> decide

/-- The parser's value dispatch on an input that starts with a sign or digit
falls through every literal keyword pattern to the number token. -/
theorem parseVal_num_head (f : Nat) (c0 : Char) (t : List Char)
    (hws : jsonWsChar c0 = false)
    (hlit : (c0 ≠ 'n' ∧ c0 ≠ 't' ∧ c0 ≠ 'f') ∧ c0 ≠ '"' ∧ c0 ≠ '[' ∧ c0 ≠ '{') :
    parseVal (f + 1) (c0 :: t) = (parseIntTok (c0 :: t)).map fun p => (.num p.1, p.2) := by
  obtain ⟨⟨hn, ht, hf2⟩, hq, hbk, hbc⟩ := hlit
  simp only [parseVal]
  rw [show skipJsonWs (c0 :: t) = c0 :: t from skipJsonWs_not t hws]
  simp [hn, ht, hf2, hq, hbk, hbc]

/-! ## Parser branch lemmas -/

theorem parseItems_step (f : Nat) (cs : List Char) :
    parseItems (f + 1) cs =
      (match parseVal f cs with
       | none => none
       | some (v, r) =>
         match skipJsonWs r with
         | ',' :: r2 => (parseItems f r2).map fun p => (v :: p.1, p.2)
         | ']' :: r2 => some ([v], r2)
         | _ => none) := rfl

theorem parseFields_step (f : Nat) (cs : List Char) :
    parseFields (f + 1) cs =
      (match skipJsonWs cs with
       | '"' :: r =>
         (match parseStrBody r with
          | none => none
          | some (k, r1) =>
            match skipJsonWs r1 with
            | ':' :: r2 =>
              (match parseVal f r2 with
               | none => none
               | some (v, r3) =>
                 match skipJsonWs r3 with
                 | ',' :: r4 => (parseFields f r4).map fun p => ((k, v) :: p.1, p.2)
                 | '}' :: r4 => some ([(k, v)], r4)
                 | _ => none)
            | _ => none)
       | _ => none) := rfl

theorem serItems_cons (x : Json) (xs : List Json) :
    ∃ u, serItems (x :: xs) = jsonSer x ++ u := by
  cases xs with
  | nil => exact ⟨[], by simp [serItems]⟩
  | cons y ys => exact ⟨',' :: serItems (y :: ys), rfl⟩

theorem serFields_cons (k : List Char) (v : Json) (kvs : List (List Char × Json)) :
    ∃ u, serFields ((k, v) :: kvs) = serStr k ++ ':' :: (jsonSer v ++ u) := by
  cases kvs with
  | nil => exact ⟨[], by simp [serFields]⟩
  | cons m ms => exact ⟨',' :: serFields (m :: ms), by simp [serFields]⟩

theorem parseVal_arr_cons (f : Nat) (x : Json) (xs : List Json) (rest : List Char) :
    parseVal (f + 1) ('[' :: (serItems (x :: xs) ++ ']' :: rest)) =
      (parseItems f (serItems (x :: xs) ++ ']' :: rest)).map fun p => (.arr p.1, p.2) := by
  obtain ⟨u, hu⟩ := serItems_cons x xs
  obtain ⟨c, t, hct, hws, hbr, _⟩ := jsonSer_head x
  have hsi : serItems (x :: xs) ++ ']' :: rest = c :: (t ++ u ++ ']' :: rest) := by
    rw [hu, hct]
    simp
  rw [hsi]
  show (match skipJsonWs (c :: (t ++ u ++ ']' :: rest)) with
        | ']' :: r2 => some (Json.arr [], r2)
        | cs2 => (parseItems f cs2).map fun p => (Json.arr p.1, p.2)) =
      (parseItems f (c :: (t ++ u ++ ']' :: rest))).map fun p => (Json.arr p.1, p.2)
  rw [skipJsonWs_not _ hws]
  simp [hbr]

theorem parseVal_obj_cons (f : Nat) (k : List Char) (v : Json)
    (kvs : List (List Char × Json)) (rest : List Char) :
    parseVal (f + 1) ('{' :: (serFields ((k, v) :: kvs) ++ '}' :: rest)) =
      (parseFields f (serFields ((k, v) :: kvs) ++ '}' :: rest)).map
        fun p => (.obj p.1, p.2) := by
  obtain ⟨u, hu⟩ := serFields_cons k v kvs
  have hsi : serFields ((k, v) :: kvs) ++ '}' :: rest =
      '"' :: (k.flatMap goEscapeChar ++ ['"'] ++ (':' :: (jsonSer v ++ u) ++ '}' :: rest)) := by
    rw [hu]
    simp [serStr]
  rw [hsi]
  rfl

theorem parseVal_num (n : Int) (f : Nat) (rest : List Char) (hr : digitDelim rest = true) :
    parseVal (f + 1) (jsonSer (.num n) ++ rest) = some (.num n, rest) := by
  show parseVal (f + 1) (intChars n ++ rest) = _
  by_cases hneg : n < 0
  · have h1 : intChars n ++ rest = '-' :: (natChars n.natAbs ++ rest) := by
      simp [intChars, hneg]
    rw [h1, parseVal_num_head f '-' _ (by decide) (by decide), ← h1,
      parseIntTok_intChars n hr]
    rfl
  · obtain ⟨c, t, hct, hc⟩ := natChars_cons n.natAbs
    have h1 : intChars n ++ rest = c :: (t ++ rest) := by
      simp [intChars, hneg, hct]
    rw [h1, parseVal_num_head f c _ (digit_not_jsonWs hc)
      ⟨⟨digit_ne hc 'n' (by decide), digit_ne hc 't' (by decide),
        digit_ne hc 'f' (by decide)⟩,
       digit_ne hc '"' (by decide), digit_ne hc '[' (by decide),
       digit_ne hc '{' (by decide)⟩, ← h1, parseIntTok_intChars n hr]
    rfl

theorem parseVal_str (s : List Char) (f : Nat) (rest : List Char) :
    parseVal (f + 1) (jsonSer (.str s) ++ rest) = some (.str s, rest) := by
  have h1 : jsonSer (.str s) ++ rest = '"' :: (s.flatMap goEscapeChar ++ '"' :: rest) := by
    simp [jsonSer, serStr]
  rw [h1]
  show (parseStrBody (s.flatMap goEscapeChar ++ '"' :: rest)).map
    (fun p => (Json.str p.1, p.2)) = _
  rw [parseStrBody_ser]
  rfl

/-! ## The JSON round trip -/

mutual
theorem rt_val : ∀ (j : Json) (fuel : Nat) (rest : List Char),
    (jsonSer j).length < fuel → digitDelim rest = true →
    parseVal fuel (jsonSer j ++ rest) = some (j, rest)
  | .null, fuel, rest, hf, _ => by
    match fuel, hf with
    | f + 1, _ => rfl
  | .bool true, fuel, rest, hf, _ => by
    match fuel, hf with
    | f + 1, _ => rfl
  | .bool false, fuel, rest, hf, _ => by
    match fuel, hf with
    | f + 1, _ => rfl
  | .num n, fuel, rest, hf, hr => by
    match fuel, hf with
    | f + 1, _ => exact parseVal_num n f rest hr
  | .str s, fuel, rest, hf, _ => by
    match fuel, hf with
    | f + 1, _ => exact parseVal_str s f rest
  | .arr [], fuel, rest, hf, _ => by
    match fuel, hf with
    | f + 1, _ => rfl
  | .arr (x :: xs), fuel, rest, hf, _ => by
    match fuel, hf with
    | f + 1, hf =>
      have harg : jsonSer (.arr (x :: xs)) ++ rest =
          '[' :: (serItems (x :: xs) ++ ']' :: rest) := by
        simp [jsonSer]
      have hlen : (jsonSer (.arr (x :: xs))).length = (serItems (x :: xs)).length + 2 := by
        simp [jsonSer]
      have hfi : (serItems (x :: xs)).length + 1 < f := by omega
      rw [harg, parseVal_arr_cons f x xs rest, rt_items x xs f rest hfi]
      rfl
  | .obj [], fuel, rest, hf, _ => by
    match fuel, hf with
    | f + 1, _ => rfl
  | .obj ((k, v) :: kvs), fuel, rest, hf, _ => by
    match fuel, hf with
    | f + 1, hf =>
      have harg : jsonSer (.obj ((k, v) :: kvs)) ++ rest =
          '{' :: (serFields ((k, v) :: kvs) ++ '}' :: rest) := by
        simp [jsonSer]
      have hlen : (jsonSer (.obj ((k, v) :: kvs))).length =
          (serFields ((k, v) :: kvs)).length + 2 := by
        simp [jsonSer]
      have hfi : (serFields ((k, v) :: kvs)).length + 1 < f := by omega
      rw [harg, parseVal_obj_cons f k v kvs rest, rt_fields (k, v) kvs f rest hfi]
      rfl
termination_by j _ _ _ _ => sizeOf j

theorem rt_items : ∀ (x : Json) (xs : List Json) (fuel : Nat) (rest : List Char),
    (serItems (x :: xs)).length + 1 < fuel →
    parseItems fuel (serItems (x :: xs) ++ ']' :: rest) = some (x :: xs, rest)
  | x, [], fuel, rest, hf => by
    match fuel, hf with
    | f + 1, hf =>
      have h1 : serItems [x] = jsonSer x := by simp [serItems]
      have hfx : (jsonSer x).length < f := by
        rw [h1] at hf
        omega
      rw [parseItems_step, h1, rt_val x f (']' :: rest) hfx rfl]
      rfl
  | x, y :: ys, fuel, rest, hf => by
    match fuel, hf with
    | f + 1, hf =>
      have h1 : serItems (x :: y :: ys) = jsonSer x ++ ',' :: serItems (y :: ys) := rfl
      have hlen : (serItems (x :: y :: ys)).length =
          (jsonSer x).length + 1 + (serItems (y :: ys)).length := by
        rw [h1]
        simp
        omega
      have hfx : (jsonSer x).length < f := by omega
      have hfy : (serItems (y :: ys)).length + 1 < f := by omega
      have harg : serItems (x :: y :: ys) ++ ']' :: rest =
          jsonSer x ++ ',' :: (serItems (y :: ys) ++ ']' :: rest) := by
        rw [h1]
        simp
      rw [parseItems_step, harg,
        rt_val x f (',' :: (serItems (y :: ys) ++ ']' :: rest)) hfx rfl]
      show (match skipJsonWs (',' :: (serItems (y :: ys) ++ ']' :: rest)) with
            | ',' :: r2 => (parseItems f r2).map fun p => (x :: p.1, p.2)
            | ']' :: r2 => some ([x], r2)
            | _ => none) = some (x :: y :: ys, rest)
      rw [skipJsonWs_not _ (by decide)]
      show (parseItems f (serItems (y :: ys) ++ ']' :: rest)).map
          (fun p => (x :: p.1, p.2)) = some (x :: y :: ys, rest)
      rw [rt_items y ys f rest hfy]
      rfl
termination_by x xs _ _ _ => sizeOf x + sizeOf xs

theorem rt_fields : ∀ (kv : List Char × Json) (kvs : List (List Char × Json))
    (fuel : Nat) (rest : List Char),
    (serFields (kv :: kvs)).length + 1 < fuel →
    parseFields fuel (serFields (kv :: kvs) ++ '}' :: rest) = some (kv :: kvs, rest)
  | (k, v), [], fuel, rest, hf => by
    match fuel, hf with
    | f + 1, hf =>
      have h1 : serFields [(k, v)] = serStr k ++ ':' :: jsonSer v := by simp [serFields]
      have hlen : (serFields [(k, v)]).length =
          (serStr k).length + 1 + (jsonSer v).length := by
        rw [h1]
        simp
        omega
      have hfv : (jsonSer v).length < f := by omega
      have harg : serFields [(k, v)] ++ '}' :: rest =
          '"' :: (k.flatMap goEscapeChar ++ '"' :: (':' :: (jsonSer v ++ '}' :: rest))) := by
        rw [h1]
        simp [serStr]
      rw [parseFields_step, harg]
      show (match parseStrBody (k.flatMap goEscapeChar ++
              '"' :: (':' :: (jsonSer v ++ '}' :: rest))) with
            | none => none
            | some (k2, r1) =>
              match skipJsonWs r1 with
              | ':' :: r2 =>
                (match parseVal f r2 with
                 | none => none
                 | some (v2, r3) =>
                   match skipJsonWs r3 with
                   | ',' :: r4 => (parseFields f r4).map fun p => ((k2, v2) :: p.1, p.2)
                   | '}' :: r4 => some ([(k2, v2)], r4)
                   | _ => none)
              | _ => none) = some ([(k, v)], rest)
      rw [parseStrBody_ser]
      show (match parseVal f (jsonSer v ++ '}' :: rest) with
            | none => none
            | some (v2, r3) =>
              match skipJsonWs r3 with
              | ',' :: r4 => (parseFields f r4).map fun p => ((k, v2) :: p.1, p.2)
              | '}' :: r4 => some ([(k, v2)], r4)
              | _ => none) = some ([(k, v)], rest)
      rw [rt_val v f ('}' :: rest) hfv rfl]
      rfl
  | (k, v), m :: ms, fuel, rest, hf => by
    match fuel, hf with
    | f + 1, hf =>
      have h1 : serFields ((k, v) :: m :: ms) =
          serStr k ++ ':' :: jsonSer v ++ ',' :: serFields (m :: ms) := by
        simp [serFields]
      have hlen : (serFields ((k, v) :: m :: ms)).length =
          (serStr k).length + 1 + (jsonSer v).length + 1 + (serFields (m :: ms)).length := by
        rw [h1]
        simp
        omega
      have hfv : (jsonSer v).length < f := by omega
      have hfm : (serFields (m :: ms)).length + 1 < f := by omega
      have harg : serFields ((k, v) :: m :: ms) ++ '}' :: rest =
          '"' :: (k.flatMap goEscapeChar ++ '"' ::
            (':' :: (jsonSer v ++ ',' :: (serFields (m :: ms) ++ '}' :: rest)))) := by
        rw [h1]
        simp [serStr]
      rw [parseFields_step, harg]
      show (match parseStrBody (k.flatMap goEscapeChar ++
              '"' :: (':' :: (jsonSer v ++ ',' :: (serFields (m :: ms) ++ '}' :: rest)))) with
            | none => none
            | some (k2, r1) =>
              match skipJsonWs r1 with
              | ':' :: r2 =>
                (match parseVal f r2 with
                 | none => none
                 | some (v2, r3) =>
                   match skipJsonWs r3 with
                   | ',' :: r4 => (parseFields f r4).map fun p => ((k2, v2) :: p.1, p.2)
                   | '}' :: r4 => some ([(k2, v2)], r4)
                   | _ => none)
              | _ => none) = some ((k, v) :: m :: ms, rest)
      rw [parseStrBody_ser]
      show (match parseVal f (jsonSer v ++ ',' :: (serFields (m :: ms) ++ '}' :: rest)) with
            | none => none
            | some (v2, r3) =>
              match skipJsonWs r3 with
              | ',' :: r4 => (parseFields f r4).map fun p => ((k, v2) :: p.1, p.2)
              | '}' :: r4 => some ([(k, v2)], r4)
              | _ => none) = some ((k, v) :: m :: ms, rest)
      rw [rt_val v f (',' :: (serFields (m :: ms) ++ '}' :: rest)) hfv rfl]
      show (match skipJsonWs (',' :: (serFields (m :: ms) ++ '}' :: rest)) with
            | ',' :: r4 => (parseFields f r4).map fun p => ((k, v) :: p.1, p.2)
            | '}' :: r4 => some ([(k, v)], r4)
            | _ => none) = some ((k, v) :: m :: ms, rest)
      rw [skipJsonWs_not _ (by decide)]
      show (parseFields f (serFields (m :: ms) ++ '}' :: rest)).map
          (fun p => ((k, v) :: p.1, p.2)) = some ((k, v) :: m :: ms, rest)
      rw [rt_fields m ms f rest hfm]
      rfl
termination_by kv kvs _ _ _ => sizeOf kv + sizeOf kvs
end

/-! ## Whole-document and whole-message round trips -/

theorem jsonParse_ser (j : Json) : jsonParse (jsonSer j) = some j := by
  unfold jsonParse
  have h := rt_val j ((jsonSer j).length + 1) [] (by omega) rfl
  rw [List.append_nil] at h
  rw [h]
  rfl

theorem jsonToResponse_responseToJson (r : Response) :
    jsonToResponse (responseToJson r) = some r := rfl

theorem unmarshalResponse_marshalResponse (r : Response) :
    unmarshalResponse (marshalResponse r) = some r := by
  unfold unmarshalResponse marshalResponse
  rw [jsonParse_ser]
  exact jsonToResponse_responseToJson r

/-! ## Trim identities for the generated header line -/

theorem getLast?_mem_of {l : List Char} {a : Char} (h : l.getLast? = some a) : a ∈ l := by
  rw [← List.head?_reverse] at h
  exact List.mem_reverse.mp (List.mem_of_mem_head? h)

theorem dropTrailing_eq_self {s : List Char}
    (hlast : ∀ c, s.getLast? = some c → isWsChar c = false) :
    (s.reverse.dropWhile isWsChar).reverse = s := by
  cases hrev : s.reverse with
  | nil =>
    have hs : s = [] := by
      cases s with
      | nil => rfl
      | cons a t => simp at hrev
    subst hs
    rfl
  | cons b u =>
    have hb : s.getLast? = some b := by
      rw [← List.head?_reverse, hrev]
      rfl
    have hbw := hlast b hb
    rw [List.dropWhile_cons, hbw]
    simp only [Bool.false_eq_true, if_false]
    rw [← hrev, List.reverse_reverse]

theorem goTrimSpace_eq_self {s : List Char}
    (hhead : ∀ c, s.head? = some c → isWsChar c = false)
    (hlast : ∀ c, s.getLast? = some c → isWsChar c = false) :
    goTrimSpace s = s := by
  cases s with
  | nil => rfl
  | cons a t =>
    have ha := hhead a rfl
    unfold goTrimSpace
    rw [List.dropWhile_cons, ha]
    simp only [Bool.false_eq_true, if_false]
    exact dropTrailing_eq_self hlast

theorem goTrimSpace_space_head {s : List Char}
    (hhead : ∀ c, s.head? = some c → isWsChar c = false)
    (hlast : ∀ c, s.getLast? = some c → isWsChar c = false) :
    goTrimSpace (' ' :: s) = s := by
  unfold goTrimSpace
  rw [List.dropWhile_cons]
  simp only [show isWsChar ' ' = true from rfl, if_true]
  cases s with
  | nil => rfl
  | cons a t =>
    have ha := hhead a rfl
    rw [List.dropWhile_cons, ha]
    simp only [Bool.false_eq_true, if_false]
    exact dropTrailing_eq_self hlast

theorem goAtoi_natChars (n : Nat) (h : (n : Int) < 2 ^ 63) :
    goAtoi (natChars n) = some (n : Int) := by
  obtain ⟨c, t, hct, hc⟩ := natChars_cons n
  have hall : (c :: t).all isDigitChar = true := by
    rw [List.all_eq_true]
    intro x hx
    exact natChars_digits n x (hct ▸ hx)
  have hdv : decimalVal (c :: t) = n := by
    rw [← hct]
    exact decimalVal_natChars n
  unfold goAtoi
  rw [hct]
  simp only [if_neg (digit_ne hc '+' (by decide)), if_neg (digit_ne hc '-' (by decide))]
  simp only [List.isEmpty_cons, Bool.false_eq_true, if_false, hall, if_true, hdv]
  rw [if_pos ⟨by omega, h⟩]

/-! ## Claim C1: decode of encode is the identity -/

/-- C1: the frame sendMessage writes for any message of the Response shape is
decoded by one iteration of the loop of listen back to exactly that message,
with the stream fully consumed.  The one side condition is that the body
length fits a 64-bit int, which is forced in Go by the int type of len. -/
theorem c1_decode_of_encode (r : Response)
    (hlen : (((marshalResponse r).length : Nat) : Int) < 2 ^ 63) :
    readFrame (sendResponseWire r) = .frame r [] := by
  have hdigits := natChars_digits (marshalResponse r).length
  have hnenil := natChars_ne_nil (marshalResponse r).length
  have hline : sendResponseWire r =
      headerBlock [chars ("Content-Length: ") ++ natChars (marshalResponse r).length]
        (marshalResponse r) := by
    simp [sendResponseWire, encodeFrame, headerBlock]
  have hheadC : ∀ c, (chars ("Content-Length: ") ++
      natChars (marshalResponse r).length).head? = some c → isWsChar c = false := by
    intro c hc
    have h0 : (chars ("Content-Length: ") ++ natChars (marshalResponse r).length).head? =
        some 'C' := rfl
    rw [h0] at hc
    cases hc
    decide
  have hlastC : ∀ c, (chars ("Content-Length: ") ++
      natChars (marshalResponse r).length).getLast? = some c → isWsChar c = false := by
    intro c hc
    rw [List.getLast?_append] at hc
    match hg : (natChars (marshalResponse r).length).getLast? with
    | none =>
      cases hn : natChars (marshalResponse r).length with
      | nil => exact absurd hn hnenil
      | cons a t =>
        rw [hn] at hg
        simp [List.getLast?] at hg
    | some d =>
      rw [hg] at hc
      have hor : (Option.some d).or ((chars ("Content-Length: ")).getLast?) = some d := rfl
      rw [hor] at hc
      injection hc with hdc
      subst hdc
      exact digit_not_ws (hdigits _ (getLast?_mem_of hg))
  have htrimid : goTrimSpace (chars ("Content-Length: ") ++
      natChars (marshalResponse r).length) =
      chars ("Content-Length: ") ++ natChars (marshalResponse r).length :=
    goTrimSpace_eq_self hheadC hlastC
  have hvdigits : ∀ x ∈ natChars (marshalResponse r).length, isDigitChar x = true := hdigits
  have hcolon2 : ':' ∉ ' ' :: natChars (marshalResponse r).length := by
    intro hm
    rcases List.mem_cons.mp hm with h1 | h2
    · exact absurd h1.symm (by decide)
    · exact absurd (hvdigits ':' h2) (by decide)
  have hsplit2 : chars ("Content-Length: ") ++ natChars (marshalResponse r).length =
      chars ("Content-Length") ++ ':' :: (' ' :: natChars (marshalResponse r).length) := rfl
  have hvhead : ∀ c, (natChars (marshalResponse r).length).head? = some c →
      isWsChar c = false := by
    intro c hc
    exact digit_not_ws (hvdigits c (List.mem_of_mem_head? hc))
  have hvlast : ∀ c, (natChars (marshalResponse r).length).getLast? = some c →
      isWsChar c = false := by
    intro c hc
    exact digit_not_ws (hvdigits c (getLast?_mem_of hc))
  have hentry : entryOf (chars ("Content-Length: ") ++
      natChars (marshalResponse r).length) =
      some (chars ("Content-Length"), natChars (marshalResponse r).length) := by
    unfold entryOf
    rw [htrimid, hsplit2]
    unfold processHeaderLine
    rw [splitOnColon_append _ (by decide), splitOnColon_no_colon hcolon2]
    show some (goTrimSpace (chars ("Content-Length")),
        goTrimSpace (' ' :: natChars (marshalResponse r).length)) = _
    rw [show goTrimSpace (chars ("Content-Length")) = chars ("Content-Length") from by decide]
    rw [goTrimSpace_space_head hvhead hvlast]
  have hnl : ∀ l ∈ [chars ("Content-Length: ") ++
      natChars (marshalResponse r).length], '\n' ∉ l := by
    intro l hl
    rw [List.mem_singleton] at hl
    subst hl
    intro hm
    rcases List.mem_append.mp hm with h1 | h2
    · exact absurd h1 (by decide)
    · exact absurd (hvdigits '\n' h2) (by decide)
  have hne : ∀ l ∈ [chars ("Content-Length: ") ++
      natChars (marshalResponse r).length], goTrimSpace l ≠ [] := by
    intro l hl
    rw [List.mem_singleton] at hl
    subst hl
    rw [htrimid]
    intro he
    have h0 : (chars ("Content-Length: ") ++ natChars (marshalResponse r).length).head? =
        some 'C' := rfl
    rw [he] at h0
    cases h0
  have hok : ∀ l ∈ [chars ("Content-Length: ") ++
      natChars (marshalResponse r).length], (entryOf l).isSome := by
    intro l hl
    rw [List.mem_singleton] at hl
    subst hl
    rw [hentry]
    rfl
  have hfuel : ([chars ("Content-Length: ") ++
      natChars (marshalResponse r).length] : List (List Char)).length <
      (headerBlock [chars ("Content-Length: ") ++ natChars (marshalResponse r).length]
        (marshalResponse r)).length + 1 :=
    Nat.lt_succ_of_le (headerBlock_length _ _)
  have hheaders := readHeadersAux_headerBlock
    [chars ("Content-Length: ") ++ natChars (marshalResponse r).length]
    ((headerBlock [chars ("Content-Length: ") ++ natChars (marshalResponse r).length]
      (marshalResponse r)).length + 1)
    [] (marshalResponse r) hfuel hnl hne hok
  have happly : applyEntries []
      [chars ("Content-Length: ") ++ natChars (marshalResponse r).length] =
      [(chars ("Content-Length"), natChars (marshalResponse r).length)] := by
    simp only [applyEntries, List.foldl_cons, List.foldl_nil, hentry]
    rfl
  have hempty : (natChars (marshalResponse r).length).isEmpty = false := by
    cases hn : natChars (marshalResponse r).length with
    | nil => exact absurd hn hnenil
    | cons a t => rfl
  have hrb : readBody (natChars (marshalResponse r).length) (marshalResponse r) =
      FrameResult.frame r [] := by
    simp only [readBody, goAtoi_natChars (marshalResponse r).length hlen,
      if_neg (show ¬ (((marshalResponse r).length : Nat) : Int) < 0 by omega),
      if_pos (le_refl (((marshalResponse r).length : Nat) : Int))]
    rw [Int.toNat_natCast, List.take_length, List.drop_length,
      unmarshalResponse_marshalResponse]
  rw [hline]
  unfold readFrame readHeaders
  rw [hheaders, happly]
  have hlookup : hdrLookup [(chars ("Content-Length"),
      natChars (marshalResponse r).length)] (chars ("Content-Length")) =
      some (natChars (marshalResponse r).length) := by
    simp [hdrLookup, List.find?_cons]
  simp only [hlookup, Option.getD_some]
  rw [if_neg (by simp [hempty])]
  exact hrb


set_option maxRecDepth 20000 in
/-- C1 witness: the round trip at a concrete message whose body nests an
array, an object, escapes and a negative number. -/
theorem c1_decode_of_encode_witness :
    readFrame (sendResponseWire roundTripSample) = .frame roundTripSample [] :=
  c1_decode_of_encode roundTripSample (by decide)
